import Mathlib

/-!
# Space-Arcade hub: delta engine and hub state machine

A shallow embedding of `server/internal/protocol/entities.go`,
`server/internal/broadcast/state_delta.go` and the hub of
`server/cmd/spacehub/main.go`, followed by the properties proved about them.

Conventions of the embedding

* Go `int` values (entity ids, health, client ids) are `Int`; none of the embedded code does
  arithmetic on them that could leave the 64-bit range.
* Go `uint32` values are `Nat` reduced modulo `2 ^ 32` where the code does arithmetic.
* Go `float64` values are IEEE-754 binary64 bit patterns (`Float64`), and the Go operators
  `==` / `!=` on them are `Float64.eq` / `Float64.ne`: a NaN differs from everything,
  itself included, and the two zeros are equal.
* A Go `map[K]V` is an `AList`: `m[k] = v` is `AList.insert`, `delete(m, k)` is `AList.erase`,
  `v, ok := m[k]` is `AList.lookup`. Go leaves the order of `range` over a map unspecified;
  the embedding ranges over `AList.entries`. The properties below are stated on membership,
  so they do not depend on that order.
* A Go `*Client` is a `ClientRef` into a heap of `Client` records.
* The bytes `json.Marshal` produces are not modelled: a frame in a client queue is the value
  that was encoded, or `Message.nilFrame` when the encoder failed (a NaN or infinite
  `float64`) and the code, which discards the error, queued the nil slice.
-/

namespace SpaceArcade

/-! ## float64 -/

/-- An IEEE-754 binary64 value: sign bit, 11-bit biased exponent, 52-bit fraction. -/
structure Float64 where
  sign : Bool
  expo : Fin 2048
  frac : Fin 4503599627370496
deriving DecidableEq, Repr

namespace Float64

/-- NaN: exponent all ones, fraction non-zero. -/
def isNaN (x : Float64) : Bool := x.expo.val == 2047 && x.frac.val != 0

/-- Either zero, `+0` or `-0`. -/
def isZero (x : Float64) : Bool := x.expo.val == 0 && x.frac.val == 0

/-- Go `x == y` on `float64`. -/
def eq (x y : Float64) : Bool :=
  !x.isNaN && !y.isNaN && (decide (x = y) || (x.isZero && y.isZero))

/-- Go `x != y` on `float64`. -/
def ne (x y : Float64) : Bool := !(eq x y)

/-- Shift the significand `m` left until bit 52 is set, lowering the biased exponent `e`. -/
def normalize : Nat → Nat → Nat → Nat × Nat
  | 0, m, e => (m, e)
  | fuel + 1, m, e => if m < 4503599627370496 then normalize fuel (2 * m) (e - 1) else (m, e)

/-- The binary64 value of an integer of magnitude below `2 ^ 53` (Go `float64(n)`, which is
exact on that range); zero is `+0`. -/
def ofSmallInt (n : Int) : Float64 :=
  if n = 0 then ⟨false, 0, 0⟩
  else
    let r := normalize 52 n.natAbs 1075
    ⟨decide (n < 0), Fin.ofNat r.2, Fin.ofNat (r.1 - 4503599627370496)⟩

/-- Neither a NaN nor an infinity: the exponent is not all ones. These are the `float64`
values `json.Marshal` accepts. -/
def isFinite (x : Float64) : Bool := x.expo.val != 2047

/-- A quiet NaN. -/
def nan : Float64 := ⟨false, 2047, 2251799813685248⟩

/-- Positive zero. -/
def posZero : Float64 := ⟨false, 0, 0⟩

/-- Negative zero. -/
def negZero : Float64 := ⟨true, 0, 0⟩

/-- Two values denote the same number: identical bits, or zeros of either sign. -/
def sameNumber (x y : Float64) : Prop := x = y ∨ (x.isZero = true ∧ y.isZero = true)

end Float64

/-! ## protocol.Entity -/

/-- The `protocol.Entity` struct. -/
structure Entity where
  ID : Int
  /-- The Go field `Type` (a reserved word here). -/
  Kind : String
  X : Float64
  Y : Float64
  Z : Float64
  VX : Float64
  VY : Float64
  VZ : Float64
  HP : Int
deriving DecidableEq, Repr

/-- A `[3]float64` array. -/
abbrev Vec3 := Float64 × Float64 × Float64

/-- The `broadcast.EntityDelta` map, restricted to the keys `ComputeDelta` writes:
`"id"` (always present), `"position"`, `"velocity"`, `"health"`. -/
structure EntityDelta where
  id : Int
  position : Option Vec3
  velocity : Option Vec3
  health : Option Int
deriving DecidableEq, Repr

/-- Every `float64` of the entity is one `json.Marshal` accepts. -/
def Entity.encodable (e : Entity) : Bool :=
  e.X.isFinite && e.Y.isFinite && e.Z.isFinite && e.VX.isFinite && e.VY.isFinite
    && e.VZ.isFinite

/-- Every `float64` of the array is one `json.Marshal` accepts. -/
def vecEncodable (v : Vec3) : Bool := v.1.isFinite && v.2.1.isFinite && v.2.2.isFinite

/-- Every `float64` of the delta record is one `json.Marshal` accepts. -/
def EntityDelta.encodable (d : EntityDelta) : Bool :=
  (match d.position with
    | some v => vecEncodable v
    | none => true) &&
  (match d.velocity with
    | some v => vecEncodable v
    | none => true)

/-- Go `len(delta)`: the number of keys of the map. -/
def EntityDelta.len (d : EntityDelta) : Nat :=
  1 + (if d.position.isSome then 1 else 0) + (if d.velocity.isSome then 1 else 0)
    + (if d.health.isSome then 1 else 0)

/-! ## broadcast.ComputeDelta -/

/-- A `map[int]protocol.Entity`. -/
abbrev EntityMap := AList (fun _ : Int => Entity)

/-- The loops `for _, e := range es { m[e.ID] = e }` of `ComputeDelta`. -/
def buildMap (es : List Entity) : EntityMap :=
  es.foldl (fun m e => m.insert e.ID e) ∅

/-- Line 42: the position test. -/
def positionDiffers (p c : Entity) : Bool :=
  Float64.ne p.X c.X || Float64.ne p.Y c.Y || Float64.ne p.Z c.Z

/-- Line 45: the velocity test. -/
def velocityDiffers (p c : Entity) : Bool :=
  Float64.ne p.VX c.VX || Float64.ne p.VY c.VY || Float64.ne p.VZ c.VZ

/-- Line 48: the health test. -/
def healthDiffers (p c : Entity) : Bool := decide (p.HP ≠ c.HP)

/-- Lines 41-50: the delta record built for an id present in both maps. -/
def fieldDelta (id : Int) (prevEnt currEnt : Entity) : EntityDelta :=
  { id := id
    position := if positionDiffers prevEnt currEnt then some (currEnt.X, currEnt.Y, currEnt.Z)
      else none
    velocity := if velocityDiffers prevEnt currEnt then some (currEnt.VX, currEnt.VY, currEnt.VZ)
      else none
    health := if healthDiffers prevEnt currEnt then some currEnt.HP else none }

/-- One iteration of the loop of lines 34-54 over `prevMap`. -/
def deltaStep (currMap : EntityMap) (acc : List EntityDelta × List Int)
    (p : Sigma (fun _ : Int => Entity)) : List EntityDelta × List Int :=
  match currMap.lookup p.1 with
  | none => (acc.1, acc.2 ++ [p.1])
  | some currEnt =>
    let delta := fieldDelta p.1 p.2 currEnt
    if delta.len > 1 then (acc.1 ++ [delta], acc.2) else acc

/-- One iteration of the loop of lines 57-61 over `currMap`. -/
def addedStep (prevMap : EntityMap) (acc : List Entity)
    (c : Sigma (fun _ : Int => Entity)) : List Entity :=
  match prevMap.lookup c.1 with
  | none => acc ++ [c.2]
  | some _ => acc

/-- The function `broadcast.ComputeDelta`: `(changed, removed, added)`. -/
def ComputeDelta (prev curr : List Entity) : List EntityDelta × List Int × List Entity :=
  let prevMap := buildMap prev
  let currMap := buildMap curr
  let cr := prevMap.entries.foldl (deltaStep currMap) ([], [])
  let added := currMap.entries.foldl (addedStep prevMap) []
  (cr.1, cr.2, added)

/-! ## The hub of cmd/spacehub/main.go -/

/-- A frame in a client queue: a message, standing for its JSON encoding, or the nil slice
the code queues when the encoder returned an error. -/
inductive Message where
  /-- JOINED: envelope `seq` and `timestamp`, then `clientId`, `lobby`, `spawnPosition`,
  `worldState.entities`. -/
  | joined (seq : Nat) (timestamp : Nat) (clientId : Int) (lobby : String)
      (spawnPosition : Vec3) (entities : List Entity)
  /-- STATE: `timestamp`, `seq`, `data.entities`. -/
  | state (timestamp : Nat) (seq : Nat) (entities : List Entity)
  /-- STATE_DELTA: `timestamp`, `seq`, `data.baseSeq`, `data.changes`, `data.removed`,
  `data.added`. -/
  | stateDelta (timestamp : Nat) (seq : Nat) (baseSeq : Nat) (changes : List EntityDelta)
      (removed : List Int) (added : List Entity)
  /-- The nil `[]byte` left in `data` / `payload` when `json.Marshal` / `proto.Wrap` returned
  an error, which lines 180, 248 and 284 discard. -/
  | nilFrame
deriving DecidableEq, Repr

/-- Whether `json.Marshal` accepts the value: it fails exactly on a NaN or infinite
`float64`. -/
def Message.encodable : Message → Bool
  | .joined _ _ _ _ spawnPosition entities =>
    vecEncodable spawnPosition && entities.all Entity.encodable
  | .state _ _ entities => entities.all Entity.encodable
  | .stateDelta _ _ _ changes _ added =>
    changes.all EntityDelta.encodable && added.all Entity.encodable
  | .nilFrame => true

/-- The result of `data, _ := json.Marshal(v)` and of `payload, _ := proto.Wrap(..., v)`: the
encoding of `v`, or the nil slice when the encoder fails. -/
def marshal (m : Message) : Message := if m.encodable then m else Message.nilFrame

/-- The ways the embedded code can stop the process. -/
inductive Fault where
  /-- Go panic "send on closed channel". -/
  | sendOnClosedChannel
  /-- Go panic "close of closed channel". -/
  | closeOfClosedChannel
  /-- A `*Client` that points at no client record. -/
  | invalidPointer
deriving DecidableEq, Repr

/-- Capacity of `Client.send`: `make(chan []byte, 256)`. -/
def sendCapacity : Nat := 256

/-- A `chan []byte`: the messages waiting in it, oldest first, and whether it was closed.
A goroutine blocked in `ch <- m` on a full channel is the one element of `buf` beyond the
capacity: it enters the buffer as soon as the reader takes a message. -/
structure Chan where
  buf : List Message
  closed : Bool
deriving DecidableEq, Repr

/-- Go `ch <- m`. -/
def Chan.send (ch : Chan) (m : Message) : Except Fault Chan :=
  if ch.closed then .error .sendOnClosedChannel else .ok { ch with buf := ch.buf ++ [m] }

/-- Go `select { case ch <- m: default: }`. -/
def Chan.trySend (ch : Chan) (m : Message) : Except Fault Chan :=
  if ch.closed then .error .sendOnClosedChannel
  else if ch.buf.length < sendCapacity then .ok { ch with buf := ch.buf ++ [m] }
  else .ok ch

/-- Go `close(ch)`. -/
def Chan.close (ch : Chan) : Except Fault Chan :=
  if ch.closed then .error .closeOfClosedChannel else .ok { ch with closed := true }

/-- A `*Client`. -/
abbrev ClientRef := Nat

/-- The `Client` struct, without its websocket connection and hub pointer. -/
structure Client where
  lobby : String
  send : Chan
  id : Int
  lastSeq : Int
deriving DecidableEq, Repr

/-- The `Hub` struct, without its event channels. -/
structure Hub where
  clients : AList (fun _ : ClientRef => Bool)
  lobbies : AList (fun _ : String => List ClientRef)
  gameState : AList (fun _ : String => List Entity)
  lastState : AList (fun _ : String => List Entity)
  lobbySeq : AList (fun _ : String => Nat)
  nextID : Int
deriving DecidableEq

/-- The hub together with the client records its pointers refer to. -/
structure World where
  hub : Hub
  heap : AList (fun _ : ClientRef => Client)
deriving DecidableEq

/-- The function `newHub`, with no client allocated yet. -/
def newHub : World :=
  { hub := { clients := ∅, lobbies := ∅, gameState := ∅, lastState := ∅, lobbySeq := ∅,
             nextID := 1 }
    heap := ∅ }

/-- The entity appended by iteration `i` of `createInitialGameState`. The coordinates
`(float64(i%5) - 2) * 20` and `(float64(i/5) - 2) * 20` only meet integers of magnitude at
most 40, on which binary64 arithmetic is exact (and `2 - 2` is `+0`), so they are computed
on integers and converted. -/
def initialEntity (i : Nat) : Entity :=
  { ID := 100 + (i : Int)
    Kind := "asteroid"
    X := Float64.ofSmallInt ((((i % 5 : Nat) : Int) - 2) * 20)
    Y := Float64.ofSmallInt 0
    Z := Float64.ofSmallInt ((((i / 5 : Nat) : Int) - 2) * 20)
    VX := Float64.ofSmallInt 0
    VY := Float64.ofSmallInt 0
    VZ := Float64.ofSmallInt 0
    HP := 50 }

/-- The method `Hub.createInitialGameState`. -/
def createInitialGameState : List Entity := (List.range 20).map initialEntity

/-- The function `cloneEntities`: a fresh slice with the same elements. Lists are values, so
the copy is the list itself; the result is never the nil slice. -/
def cloneEntities (src : List Entity) : List Entity := src

/-- Go `uint32(n)` for a non-negative `n`. -/
def toUint32 (n : Nat) : Nat := n % 4294967296

/-- The method `Hub.addToLobby`, run for the JOIN of client `c`; `now` is the clock reading
in milliseconds. -/
def addToLobby (c : ClientRef) (lobby : String) (now : Nat) (w : World) : Except Fault World :=
  match w.heap.lookup c with
  | none => .error .invalidPointer
  | some cl =>
    let lobbies := w.hub.lobbies.insert lobby ((w.hub.lobbies.lookup lobby).getD [] ++ [c])
    let gameState :=
      match w.hub.gameState.lookup lobby with
      | some _ => w.hub.gameState
      | none => w.hub.gameState.insert lobby createInitialGameState
    let payload := marshal (Message.joined (toUint32 (now / 1000)) now cl.id lobby
      (Float64.ofSmallInt 0, Float64.ofSmallInt 0, Float64.ofSmallInt 0)
      ((gameState.lookup lobby).getD []))
    match cl.send.send payload with
    | .error f => .error f
    | .ok ch =>
      .ok { hub := { w.hub with lobbies := lobbies, gameState := gameState }
            heap := w.heap.insert c { cl with lobby := lobby, send := ch } }

/-- The method `Hub.removeFromLobby`. -/
def removeFromLobby (c : ClientRef) (w : World) : Except Fault World :=
  match w.heap.lookup c with
  | none => .error .invalidPointer
  | some cl =>
    if cl.lobby = "" then .ok w
    else
      let clients := (w.hub.lobbies.lookup cl.lobby).getD []
      let lobbies :=
        if c ∈ clients then w.hub.lobbies.insert cl.lobby (clients.erase c) else w.hub.lobbies
      if ((lobbies.lookup cl.lobby).getD []).length = 0 then
        .ok { w with hub := { w.hub with lobbies := lobbies.erase cl.lobby,
                                         gameState := w.hub.gameState.erase cl.lobby } }
      else .ok { w with hub := { w.hub with lobbies := lobbies } }

/-- The `register` case of `Hub.run`, together with the allocation of the client in
`wsHandler` (`lobby` empty, `send` an open empty channel). -/
def register (c : ClientRef) (w : World) : Except Fault World :=
  .ok { hub := { w.hub with clients := w.hub.clients.insert c true, nextID := w.hub.nextID + 1 }
        heap := w.heap.insert c
          { lobby := "", send := { buf := [], closed := false }, id := w.hub.nextID,
            lastSeq := 0 } }

/-- The `unregister` case of `Hub.run`. -/
def unregister (c : ClientRef) (w : World) : Except Fault World :=
  match w.hub.clients.lookup c with
  | none => .ok w
  | some _ =>
    match w.heap.lookup c with
    | none => .error .invalidPointer
    | some cl =>
      match cl.send.close with
      | .error f => .error f
      | .ok ch =>
        removeFromLobby c
          { hub := { w.hub with clients := w.hub.clients.erase c }
            heap := w.heap.insert c { cl with send := ch } }

/-- The fan-out loops of `broadcastGameState`:
`for _, client := range clients { select { case client.send <- data: default: } }`. -/
def fanOut (msg : Message) :
    List ClientRef → AList (fun _ : ClientRef => Client) →
      Except Fault (AList (fun _ : ClientRef => Client))
  | [], heap => .ok heap
  | c :: cs, heap =>
    match heap.lookup c with
    | none => .error .invalidPointer
    | some cl =>
      match cl.send.trySend msg with
      | .error f => .error f
      | .ok ch => fanOut msg cs (heap.insert c { cl with send := ch })

/-- The body of the loop of `broadcastGameState` for one entry of `h.lobbies`. -/
def broadcastLobby (now : Nat) (lobby : String) (clients : List ClientRef) (w : World) :
    Except Fault World :=
  if clients.length = 0 then .ok w
  else
    let seq := toUint32 ((w.hub.lobbySeq.lookup lobby).getD 0 + 1)
    let lobbySeq := w.hub.lobbySeq.insert lobby seq
    let curr := (w.hub.gameState.lookup lobby).getD []
    match w.hub.lastState.lookup lobby with
    | none =>
      match fanOut (marshal (Message.state now seq curr)) clients w.heap with
      | .error f => .error f
      | .ok heap =>
        .ok { hub := { w.hub with lobbySeq := lobbySeq,
                                  lastState := w.hub.lastState.insert lobby (cloneEntities curr) }
              heap := heap }
    | some prev =>
      let d := ComputeDelta prev curr
      if d.1.length = 0 ∧ d.2.1.length = 0 ∧ d.2.2.length = 0 then
        .ok { w with hub := { w.hub with lobbySeq := lobbySeq } }
      else
        match fanOut
            (marshal (Message.stateDelta now seq (toUint32 (seq + 4294967295)) d.1 d.2.1 d.2.2))
            clients w.heap with
        | .error f => .error f
        | .ok heap =>
          .ok { hub := { w.hub with lobbySeq := lobbySeq,
                                    lastState := w.hub.lastState.insert lobby (cloneEntities curr) }
                heap := heap }

/-- The loop `for lobby, clients := range h.lobbies` over the given entries. -/
def broadcastLoop (now : Nat) :
    List (Sigma (fun _ : String => List ClientRef)) → World → Except Fault World
  | [], w => .ok w
  | e :: rest, w =>
    match broadcastLobby now e.1 e.2 w with
    | .error f => .error f
    | .ok w1 => broadcastLoop now rest w1

/-- The method `Hub.broadcastGameState`. -/
def broadcastGameState (now : Nat) (w : World) : Except Fault World :=
  broadcastLoop now w.hub.lobbies.entries w

/-- The receive `message, ok := <-c.send` of `Client.writePump` taking one queued message. -/
def drain (c : ClientRef) (w : World) : Except Fault World :=
  match w.heap.lookup c with
  | none => .error .invalidPointer
  | some cl =>
    let ch : Chan := { cl.send with buf := cl.send.buf.tail }
    .ok { w with heap := w.heap.insert c { cl with send := ch } }

/-- What happens to the hub: the three events of `Hub.run` that the repository produces
(nothing ever sends on `h.broadcast`), the JOIN that `Client.handleMessage` applies through
`addToLobby`, and a client writer taking a message off its queue. -/
inductive Event where
  | register (c : ClientRef)
  | unregister (c : ClientRef)
  | join (c : ClientRef) (lobby : String) (now : Nat)
  | tick (now : Nat)
  | drain (c : ClientRef)
deriving DecidableEq, Repr

/-- Whether the goroutine of client `c` that reads its socket is free to act: the client
exists and is not blocked in a send on a full queue. -/
def readerFree (c : ClientRef) (w : World) : Bool :=
  match w.heap.lookup c with
  | none => false
  | some cl => decide (cl.send.buf.length ≤ sendCapacity)

/-- Whether an event can occur in a state. `register` is for a client just allocated by
`wsHandler`; `join` comes from the reader of a registered client, which runs from
registration until it hands the client to `unregister`; `unregister` comes from the reader of an
allocated client; `drain` needs a queued message. -/
def enabled (w : World) : Event → Bool
  | .register c => (w.heap.lookup c).isNone
  | .unregister c => readerFree c w
  | .join c _ _ => (w.hub.clients.lookup c).isSome && readerFree c w
  | .tick _ => true
  | .drain c =>
    match w.heap.lookup c with
    | none => false
    | some cl => !cl.send.buf.isEmpty

/-- The effect of one event. -/
def step (w : World) : Event → Except Fault World
  | .register c => register c w
  | .unregister c => unregister c w
  | .join c lobby now => addToLobby c lobby now w
  | .tick now => broadcastGameState now w
  | .drain c => drain c w

/-- The result of a sequence of events. -/
inductive Outcome where
  /-- Every event was enabled and none panicked. -/
  | state (w : World)
  /-- An enabled event stopped the process. -/
  | panic (f : Fault)
  /-- An event was not enabled when its turn came. -/
  | refused
deriving DecidableEq

/-- Run a sequence of events from a state. -/
def run : World → List Event → Outcome
  | w, [] => .state w
  | w, e :: es =>
    if enabled w e then
      match step w e with
      | .ok w1 => run w1 es
      | .error f => .panic f
    else .refused

/-- The states the hub can reach from `newHub`. -/
def Reachable (w : World) : Prop := ∃ es, run newHub es = Outcome.state w

/-- The members of a lobby: `h.lobbies[lobby]`. -/
def members (w : World) (lobby : String) : List ClientRef :=
  (w.hub.lobbies.lookup lobby).getD []

/-- The queue of a client, empty for an unallocated one. -/
def queueOf (w : World) (c : ClientRef) : List Message :=
  match w.heap.lookup c with
  | none => []
  | some cl => cl.send.buf

/-! ## Vocabulary of the statements -/

/-- The entity a `map[int]Entity` built from `es` holds for `id`: the last one of `es` with
that id. -/
def lastWithId (id : Int) : List Entity → Option Entity
  | [] => none
  | e :: es =>
    match lastWithId id es with
    | some x => some x
    | none => if e.ID = id then some e else none

/-- No position or velocity component of the entity is a NaN. -/
def Entity.nanFree (e : Entity) : Bool :=
  !e.X.isNaN && !e.Y.isNaN && !e.Z.isNaN && !e.VX.isNaN && !e.VY.isNaN && !e.VZ.isNaN

/-- The record of `changed` for an id, if any, written out from the tests of lines 42-51. -/
def changedRecord (id : Int) (p c : Entity) : Option EntityDelta :=
  if positionDiffers p c || velocityDiffers p c || healthDiffers p c then
    some (fieldDelta id p c)
  else none

/-- What one entry of `prevMap` contributes to `changed`. -/
def changedOf (currMap : EntityMap) (p : Sigma (fun _ : Int => Entity)) : Option EntityDelta :=
  match currMap.lookup p.1 with
  | none => none
  | some c => if (fieldDelta p.1 p.2 c).len > 1 then some (fieldDelta p.1 p.2 c) else none

/-- What one entry of `prevMap` contributes to `removed`. -/
def removedOf (currMap : EntityMap) (p : Sigma (fun _ : Int => Entity)) : Option Int :=
  match currMap.lookup p.1 with
  | none => some p.1
  | some _ => none

/-- What one entry of `currMap` contributes to `added`. -/
def addedOf (prevMap : EntityMap) (c : Sigma (fun _ : Int => Entity)) : Option Entity :=
  match prevMap.lookup c.1 with
  | none => some c.2
  | some _ => none

/-- The receiving side of a delta, from the wording of the specification: overwrite the
position / velocity / health of the entity with the id of the record by each field present
in the record. -/
def applyRecord (d : EntityDelta) (e : Entity) : Entity :=
  if e.ID = d.id then
    let e1 := match d.position with
      | some v => { e with X := v.1, Y := v.2.1, Z := v.2.2 }
      | none => e
    let e2 := match d.velocity with
      | some v => { e1 with VX := v.1, VY := v.2.1, VZ := v.2.2 }
      | none => e1
    match d.health with
    | some h => { e2 with HP := h }
    | none => e2
  else e

/-- The receiving side of a delta, from the wording of the specification: delete from `A`
every entity whose id is in `removed`, append every entity of `added`, then apply the
records of `changed`. -/
def applyDelta (A : List Entity) (d : List EntityDelta × List Int × List Entity) :
    List Entity :=
  d.1.foldl (fun es r => es.map (applyRecord r))
    (A.filter (fun e => decide (e.ID ∉ d.2.1)) ++ d.2.2)

/-- Round-trip reconstruction read to the letter: the rebuilt collection has the ids of `B`
and each of its entities is, field for field, the entity of `B` with that id. -/
def RoundTripExact (A B : List Entity) : Prop :=
  (∀ id ∈ (applyDelta A (ComputeDelta A B)).map Entity.ID, id ∈ B.map Entity.ID) ∧
  (∀ id ∈ B.map Entity.ID, id ∈ (applyDelta A (ComputeDelta A B)).map Entity.ID) ∧
  ∀ r ∈ applyDelta A (ComputeDelta A B), lastWithId r.ID B = some r

instance (A B : List Entity) : Decidable (RoundTripExact A B) := by
  unfold RoundTripExact; infer_instance

/-- The entity `r` carries the values of `b` in every field a delta can carry: the same id and
health, and position and velocity components that are the same numbers. -/
def Entity.agrees (r b : Entity) : Prop :=
  r.ID = b.ID ∧ r.HP = b.HP ∧
  Float64.sameNumber r.X b.X ∧ Float64.sameNumber r.Y b.Y ∧ Float64.sameNumber r.Z b.Z ∧
  Float64.sameNumber r.VX b.VX ∧ Float64.sameNumber r.VY b.VY ∧ Float64.sameNumber r.VZ b.VZ

/-- An entity at rest on the x axis: the given id, kind, x coordinate and health, every other
coordinate `+0`. -/
def sampleEntity (id : Int) (kind : String) (x : Float64) (hp : Int) : Entity :=
  { ID := id, Kind := kind, X := x, Y := Float64.posZero, Z := Float64.posZero,
    VX := Float64.posZero, VY := Float64.posZero, VZ := Float64.posZero, HP := hp }

/-- The entity list with the health of every entity of the given id replaced. -/
def setHealth (id : Int) (hp : Int) (es : List Entity) : List Entity :=
  es.map (fun e => if e.ID = id then { e with HP := hp } else e)

/-- The state a run ends in, if it ends in one. -/
def finalState : Outcome → Option World
  | .state w => some w
  | _ => none

/-- A hub with one lobby, `"alpha"`, of one member, whose single entity changed kind since
the last snapshot was stored. -/
def staleKindWorld : World :=
  { hub :=
      { clients := AList.insert 1 true ∅
        lobbies := AList.insert "alpha" [1] ∅
        gameState := AList.insert "alpha" [sampleEntity 100 "debris" Float64.posZero 50] ∅
        lastState := AList.insert "alpha" [sampleEntity 100 "asteroid" Float64.posZero 50] ∅
        lobbySeq := AList.insert "alpha" 1 ∅
        nextID := 2 }
    heap := AList.insert 1
      { lobby := "alpha", send := { buf := [], closed := false }, id := 1, lastSeq := 0 } ∅ }

/-- The state `staleKindWorld` with the sequence counter of `"alpha"` advanced to 2 and
nothing else changed. -/
def staleKindWorldTicked : World :=
  { staleKindWorld with
    hub := { staleKindWorld.hub with lobbySeq := AList.insert "alpha" 2 ∅ } }

/-- Go `p.F == c.F` on each of the seven compared fields. -/
def Entity.goEqual (p c : Entity) : Prop :=
  Float64.eq p.X c.X = true ∧ Float64.eq p.Y c.Y = true ∧ Float64.eq p.Z c.Z = true ∧
  Float64.eq p.VX c.VX = true ∧ Float64.eq p.VY c.VY = true ∧ Float64.eq p.VZ c.VZ = true ∧
  p.HP = c.HP

/-- The seven compared fields hold identical values. -/
def Entity.sameFields (p c : Entity) : Prop :=
  p.X = c.X ∧ p.Y = c.Y ∧ p.Z = c.Z ∧ p.VX = c.VX ∧ p.VY = c.VY ∧ p.VZ = c.VZ ∧ p.HP = c.HP

instance (p c : Entity) : Decidable (Entity.sameFields p c) := by
  unfold Entity.sameFields; infer_instance

/-- The sequence counter of a lobby: `h.lobbySeq[lobby]`, zero for a missing key. -/
def seqOf (w : World) (lobby : String) : Nat := (w.hub.lobbySeq.lookup lobby).getD 0

/-- The client record with more messages queued behind those it holds. -/
def Client.fedWith (cl : Client) (ms : List Message) : Client :=
  { cl with send := { cl.send with buf := cl.send.buf ++ ms } }

/-- The frame the body of the loop of `broadcastGameState` fans out for a lobby with members:
the encoding of a STATE when there is no previous snapshot, nothing when the delta is empty,
the encoding of a STATE_DELTA otherwise; `marshal` makes it the nil frame when the encoder
fails. -/
def lobbyMessage (now : Nat) (lobby : String) (w : World) : Option Message :=
  match w.hub.lastState.lookup lobby with
  | none =>
    some (marshal (Message.state now (toUint32 (seqOf w lobby + 1))
      ((w.hub.gameState.lookup lobby).getD [])))
  | some prev =>
    if ComputeDelta prev ((w.hub.gameState.lookup lobby).getD []) = ([], [], []) then none
    else
      some (marshal (Message.stateDelta now (toUint32 (seqOf w lobby + 1))
        (toUint32 (toUint32 (seqOf w lobby + 1) + 4294967295))
        (ComputeDelta prev ((w.hub.gameState.lookup lobby).getD [])).1
        (ComputeDelta prev ((w.hub.gameState.lookup lobby).getD [])).2.1
        (ComputeDelta prev ((w.hub.gameState.lookup lobby).getD [])).2.2))

/-- The state `staleKindWorld` with the sequence counter of `"alpha"` at the largest
`uint32`. -/
def wrapWorld : World :=
  { staleKindWorld with
    hub := { staleKindWorld.hub with lobbySeq := AList.insert "alpha" 4294967295 ∅ } }

/-- A hub with one lobby, `"alpha"`, of one member, whose single entity lost health since
the last snapshot was stored. -/
def deltaWorld : World :=
  { staleKindWorld with
    hub := { staleKindWorld.hub with
      gameState := AList.insert "alpha" [sampleEntity 100 "asteroid" Float64.posZero 40] ∅ } }

/-- The state `deltaWorld` after a tick at clock reading 66: counter 2, the STATE_DELTA in
the queue of the member, the snapshot replaced. -/
def deltaWorldTicked : World :=
  { hub := { deltaWorld.hub with
      lobbySeq := AList.insert "alpha" 2 ∅
      lastState := AList.insert "alpha" [sampleEntity 100 "asteroid" Float64.posZero 40] ∅ }
    heap := AList.insert 1
      { lobby := "alpha"
        send := { buf := [Message.stateDelta 66 2 1 [⟨100, none, none, some 40⟩] [] []],
                  closed := false }
        id := 1, lastSeq := 0 } ∅ }

/-- The hub after `Register` of client 1. -/
def registeredWorld : World :=
  { hub := { newHub.hub with clients := AList.insert 1 true ∅, nextID := 2 }
    heap := AList.insert 1
      { lobby := "", send := { buf := [], closed := false }, id := 1, lastSeq := 0 } ∅ }

/-- The hub after `Register` of client 1 and its JOIN of `"alpha"` at clock reading 0. -/
def joinedWorld : World :=
  { hub := { registeredWorld.hub with
      lobbies := AList.insert "alpha" [1] ∅
      gameState := AList.insert "alpha" createInitialGameState ∅ }
    heap := AList.insert 1
      { lobby := "alpha"
        send := { buf := [Message.joined 0 0 1 "alpha"
                    (Float64.posZero, Float64.posZero, Float64.posZero) createInitialGameState],
                  closed := false }
        id := 1, lastSeq := 0 } ∅ }

/-- A lobby has entity state exactly when it has a member. -/
def StateIffMembers (w : World) : Prop :=
  ∀ L, w.hub.gameState.lookup L ≠ none ↔ members w L ≠ []

/-- A hub whose lobby `"alpha"` has two members and no previous snapshot: client 1 with 256
messages waiting in its queue, client 2 with none. -/
def fullWorld : World :=
  { hub :=
      { clients := AList.insert 2 true (AList.insert 1 true ∅)
        lobbies := AList.insert "alpha" [1, 2] ∅
        gameState := AList.insert "alpha" createInitialGameState ∅
        lastState := ∅
        lobbySeq := ∅
        nextID := 3 }
    heap := AList.insert 2
      { lobby := "alpha", send := { buf := [], closed := false }, id := 2, lastSeq := 0 }
      (AList.insert 1
        { lobby := "alpha"
          send := { buf := List.replicate 256 (Message.state 0 0 []), closed := false }
          id := 1, lastSeq := 0 } ∅) }

/-- The clients of the `Register` events of a sequence of events, in the order they were
processed. -/
def registrations : List Event → List ClientRef
  | [] => []
  | .register c :: es => c :: registrations es
  | _ :: es => registrations es

/-- The bookkeeping of identities after the registrations `regs`: the next identity is their
number plus one, the allocated clients are the registered ones, and each holds its rank in
`regs`, counted from one. -/
def RegInv (regs : List ClientRef) (w : World) : Prop :=
  w.hub.nextID = (regs.length : Int) + 1 ∧ regs.Nodup ∧
  (∀ c, w.heap.lookup c ≠ none ↔ c ∈ regs) ∧
  (∀ c cl, w.heap.lookup c = some cl → cl.id = (regs.indexOf c : Int) + 1)

/-- The hub after `Register` of client 1, its JOIN of `"alpha"` and its `Unregister`: the
lobby is gone, the client record remains with its queue closed. -/
def unregisteredWorld : World :=
  { hub := { newHub.hub with nextID := 2 }
    heap := AList.insert 1
      { lobby := "alpha"
        send := { buf := [Message.joined 0 0 1 "alpha"
                    (Float64.posZero, Float64.posZero, Float64.posZero) createInitialGameState],
                  closed := true }
        id := 1, lastSeq := 0 } ∅ }

/-- The client is allocated and is not in the registry. -/
def Gone (c : ClientRef) (w : World) : Prop :=
  w.heap.lookup c ≠ none ∧ w.hub.clients.lookup c = none

/-- The goroutines of the server. -/
inductive Context where
  /-- The goroutine of `go hub.run()`. -/
  | hubLoop
  /-- The goroutine of `go client.readPump()` of a client. -/
  | reader (c : ClientRef)
  /-- The goroutine of `go client.writePump()` of a client. -/
  | writer (c : ClientRef)
deriving DecidableEq, Repr

/-- The goroutine that executes the code of an event: the cases of the `select` of `Hub.run`
run in the hub loop; `addToLobby` is called by `Client.handleMessage` (line 399), which
`Client.readPump` calls (line 349); the receive from `c.send` is in `Client.writePump`. -/
def executedBy : Event → Context
  | .register _ => .hubLoop
  | .unregister _ => .hubLoop
  | .tick _ => .hubLoop
  | .join c _ _ => .reader c
  | .drain c => .writer c

/-- The client is allocated and its queue is open. -/
def OpenIn (heap : AList (fun _ : ClientRef => Client)) (c : ClientRef) : Prop :=
  ∃ cl, heap.lookup c = some cl ∧ cl.send.closed = false

/-- The state `fullWorld` after a tick at clock reading 66: the STATE reached client 2
only. -/
def fullWorldTicked : World :=
  { hub := { fullWorld.hub with
      lobbySeq := AList.insert "alpha" 1 ∅
      lastState := AList.insert "alpha" createInitialGameState ∅ }
    heap := AList.insert 2
      { lobby := "alpha"
        send := { buf := [Message.state 66 1 createInitialGameState], closed := false }
        id := 2, lastSeq := 0 }
      (AList.insert 1
        { lobby := "alpha"
          send := { buf := List.replicate 256 (Message.state 0 0 []), closed := false }
          id := 1, lastSeq := 0 } ∅) }

/-- A hub whose lobby `"alpha"` has one member, client 1, a previous snapshot with the entity
at rest at the origin and a current entity whose x coordinate is a NaN; client 2 is
registered and in no lobby. -/
def nanWorld : World :=
  { hub := { staleKindWorld.hub with
      clients := AList.insert 2 true (AList.insert 1 true ∅)
      gameState := AList.insert "alpha" [sampleEntity 100 "asteroid" Float64.nan 50] ∅
      nextID := 3 }
    heap := AList.insert 2
      { lobby := "", send := { buf := [], closed := false }, id := 2, lastSeq := 0 }
      staleKindWorld.heap }

/-- The state `nanWorld` after a tick at clock reading 66: counter 2, the nil frame in the
queue of client 1, the snapshot replaced. -/
def nanWorldTicked : World :=
  { hub := { nanWorld.hub with
      lobbySeq := AList.insert "alpha" 2 ∅
      lastState := AList.insert "alpha" [sampleEntity 100 "asteroid" Float64.nan 50] ∅ }
    heap := AList.insert 1
      { lobby := "alpha", send := { buf := [Message.nilFrame], closed := false }, id := 1,
        lastSeq := 0 }
      (AList.insert 2
        { lobby := "", send := { buf := [], closed := false }, id := 2, lastSeq := 0 } ∅) }

/-! ## Properties of ComputeDelta -/

section DeltaLemmas

theorem lastWithId_some {id : Int} {es : List Entity} {e : Entity}
    (h : lastWithId id es = some e) : e.ID = id ∧ e ∈ es := by
  induction es with
  | nil => simp [lastWithId] at h
  | cons a es ih =>
    simp only [lastWithId] at h
    cases hl : lastWithId id es with
    | some x =>
      rw [hl] at h
      simp only [Option.some.injEq] at h
      subst h
      exact ⟨(ih hl).1, List.mem_cons_of_mem _ (ih hl).2⟩
    | none =>
      rw [hl] at h
      by_cases ha : a.ID = id
      · simp only [ha, if_true, Option.some.injEq] at h
        subst h
        exact ⟨ha, List.mem_cons_self _ _⟩
      · simp [ha] at h

theorem lastWithId_eq_none {id : Int} {es : List Entity} :
    lastWithId id es = none ↔ id ∉ es.map Entity.ID := by
  induction es with
  | nil => simp [lastWithId]
  | cons a es ih =>
    simp only [lastWithId, List.map_cons, List.mem_cons, not_or]
    cases hl : lastWithId id es with
    | some x =>
      have hmem : id ∈ es.map Entity.ID := by
        by_contra h
        rw [ih.mpr h] at hl; exact Option.noConfusion hl
      constructor
      · intro h; exact Option.noConfusion h
      · intro h; exact absurd hmem h.2
    | none =>
      have h2 := ih.mp hl
      by_cases ha : a.ID = id
      · simp [ha]
      · simp only [ha, if_false, true_iff]
        exact ⟨fun h => ha h.symm, h2⟩

theorem lastWithId_isSome {id : Int} {es : List Entity} :
    (∃ e, lastWithId id es = some e) ↔ id ∈ es.map Entity.ID := by
  constructor
  · rintro ⟨e, he⟩
    by_contra hn
    rw [lastWithId_eq_none.mpr hn] at he
    exact Option.noConfusion he
  · intro h
    cases hl : lastWithId id es with
    | some x => exact ⟨x, rfl⟩
    | none => exact absurd h (lastWithId_eq_none.mp hl)

theorem lastWithId_of_nodup {es : List Entity} (hnd : (es.map Entity.ID).Nodup)
    {e : Entity} (he : e ∈ es) : lastWithId e.ID es = some e := by
  induction es with
  | nil => simp at he
  | cons a es ih =>
    simp only [List.map_cons, List.nodup_cons] at hnd
    simp only [lastWithId]
    rcases List.mem_cons.mp he with rfl | hmem
    · rw [lastWithId_eq_none.mpr hnd.1]
      simp
    · rw [ih hnd.2 hmem]

theorem lookup_foldl_insert (id : Int) (es : List Entity) (m : EntityMap) :
    (es.foldl (fun m e => m.insert e.ID e) m).lookup id
      = match lastWithId id es with
        | some x => some x
        | none => m.lookup id := by
  induction es generalizing m with
  | nil => simp [lastWithId]
  | cons a es ih =>
    simp only [List.foldl_cons, lastWithId]
    rw [ih]
    cases hl : lastWithId id es with
    | some x => rfl
    | none =>
      by_cases ha : a.ID = id
      · subst ha
        simp [AList.lookup_insert]
      · have hne : id ≠ a.ID := fun h => ha h.symm
        simp [ha, AList.lookup_insert_ne hne]

theorem lookup_buildMap (id : Int) (es : List Entity) :
    (buildMap es).lookup id = lastWithId id es := by
  unfold buildMap
  rw [lookup_foldl_insert]
  cases lastWithId id es <;> simp

theorem mem_entries_buildMap {es : List Entity} {p : Sigma (fun _ : Int => Entity)} :
    p ∈ (buildMap es).entries ↔ lastWithId p.1 es = some p.2 := by
  rw [← lookup_buildMap]
  obtain ⟨k, e⟩ := p
  exact (AList.mem_lookup_iff (s := buildMap es) (a := k) (b := e)).symm

theorem foldl_deltaStep (cm : EntityMap) (l : List (Sigma (fun _ : Int => Entity)))
    (acc : List EntityDelta × List Int) :
    l.foldl (deltaStep cm) acc
      = (acc.1 ++ l.filterMap (changedOf cm), acc.2 ++ l.filterMap (removedOf cm)) := by
  induction l generalizing acc with
  | nil => simp
  | cons p l ih =>
    simp only [List.foldl_cons]
    rw [ih]
    unfold deltaStep changedOf removedOf
    cases hc : cm.lookup p.1 with
    | none => simp [List.filterMap_cons, hc]
    | some c =>
      by_cases hlen : (fieldDelta p.1 p.2 c).len > 1
      · simp [List.filterMap_cons, hc, hlen]
      · simp [List.filterMap_cons, hc, hlen]

theorem foldl_addedStep (pm : EntityMap) (l : List (Sigma (fun _ : Int => Entity)))
    (acc : List Entity) :
    l.foldl (addedStep pm) acc = acc ++ l.filterMap (addedOf pm) := by
  induction l generalizing acc with
  | nil => simp
  | cons p l ih =>
    simp only [List.foldl_cons]
    rw [ih]
    unfold addedStep addedOf
    cases hc : pm.lookup p.1 with
    | none => simp [List.filterMap_cons, hc]
    | some c => simp [List.filterMap_cons, hc]

theorem changed_eq (prev curr : List Entity) :
    (ComputeDelta prev curr).1 = (buildMap prev).entries.filterMap (changedOf (buildMap curr)) := by
  simp [ComputeDelta, foldl_deltaStep]

theorem removed_eq (prev curr : List Entity) :
    (ComputeDelta prev curr).2.1
      = (buildMap prev).entries.filterMap (removedOf (buildMap curr)) := by
  simp [ComputeDelta, foldl_deltaStep]

theorem added_eq (prev curr : List Entity) :
    (ComputeDelta prev curr).2.2 = (buildMap curr).entries.filterMap (addedOf (buildMap prev)) := by
  simp [ComputeDelta, foldl_addedStep]

theorem fieldDelta_len (id : Int) (p c : Entity) :
    (fieldDelta id p c).len > 1
      ↔ (positionDiffers p c || velocityDiffers p c || healthDiffers p c) = true := by
  unfold fieldDelta EntityDelta.len
  cases positionDiffers p c <;> cases velocityDiffers p c <;> cases healthDiffers p c <;> simp

theorem mem_changed {prev curr : List Entity} {d : EntityDelta} :
    d ∈ (ComputeDelta prev curr).1 ↔
      ∃ p c, lastWithId d.id prev = some p ∧ lastWithId d.id curr = some c ∧
        changedRecord d.id p c = some d := by
  rw [changed_eq, List.mem_filterMap]
  constructor
  · rintro ⟨⟨k, p⟩, hp, hd⟩
    rw [mem_entries_buildMap] at hp
    unfold changedOf at hd
    simp only [lookup_buildMap] at hd
    cases hc : lastWithId k curr with
    | none => rw [hc] at hd; exact Option.noConfusion hd
    | some c =>
      rw [hc] at hd
      simp only at hd
      by_cases hlen : (fieldDelta k p c).len > 1
      · rw [if_pos hlen] at hd
        simp only [Option.some.injEq] at hd
        have hid : d.id = k := by rw [← hd]; rfl
        rw [hid]
        refine ⟨p, c, hp, hc, ?_⟩
        unfold changedRecord
        rw [if_pos ((fieldDelta_len k p c).mp hlen), hd]
      · rw [if_neg hlen] at hd; exact Option.noConfusion hd
  · rintro ⟨p, c, hp, hc, hd⟩
    refine ⟨⟨d.id, p⟩, mem_entries_buildMap.mpr hp, ?_⟩
    unfold changedOf
    simp only [lookup_buildMap, hc]
    unfold changedRecord at hd
    by_cases hb : (positionDiffers p c || velocityDiffers p c || healthDiffers p c) = true
    · rw [if_pos hb] at hd
      rw [if_pos ((fieldDelta_len d.id p c).mpr hb)]
      exact hd
    · rw [if_neg hb] at hd; exact Option.noConfusion hd

theorem mem_removed {prev curr : List Entity} {id : Int} :
    id ∈ (ComputeDelta prev curr).2.1 ↔
      id ∈ prev.map Entity.ID ∧ id ∉ curr.map Entity.ID := by
  rw [removed_eq, List.mem_filterMap]
  constructor
  · rintro ⟨⟨k, p⟩, hp, hd⟩
    rw [mem_entries_buildMap] at hp
    unfold removedOf at hd
    simp only [lookup_buildMap] at hd
    cases hc : lastWithId k curr with
    | none =>
      rw [hc] at hd
      simp only [Option.some.injEq] at hd
      subst hd
      exact ⟨lastWithId_isSome.mp ⟨p, hp⟩, lastWithId_eq_none.mp hc⟩
    | some c => rw [hc] at hd; exact Option.noConfusion hd
  · rintro ⟨h1, h2⟩
    obtain ⟨p, hp⟩ := lastWithId_isSome.mpr h1
    refine ⟨⟨id, p⟩, mem_entries_buildMap.mpr hp, ?_⟩
    unfold removedOf
    simp only [lookup_buildMap, lastWithId_eq_none.mpr h2]

theorem mem_added {prev curr : List Entity} {e : Entity} :
    e ∈ (ComputeDelta prev curr).2.2 ↔
      lastWithId e.ID curr = some e ∧ e.ID ∉ prev.map Entity.ID := by
  rw [added_eq, List.mem_filterMap]
  constructor
  · rintro ⟨⟨k, c⟩, hc, hd⟩
    rw [mem_entries_buildMap] at hc
    unfold addedOf at hd
    simp only [lookup_buildMap] at hd
    cases hp : lastWithId k prev with
    | none =>
      rw [hp] at hd
      simp only [Option.some.injEq] at hd
      subst hd
      have hk := (lastWithId_some hc).1
      rw [hk]
      exact ⟨hc, lastWithId_eq_none.mp hp⟩
    | some p => rw [hp] at hd; exact Option.noConfusion hd
  · rintro ⟨h1, h2⟩
    refine ⟨⟨e.ID, e⟩, mem_entries_buildMap.mpr h1, ?_⟩
    unfold addedOf
    simp only [lookup_buildMap, lastWithId_eq_none.mpr h2]

end DeltaLemmas

theorem Float64.ne_self {x : Float64} (h : x.isNaN = false) : Float64.ne x x = false := by
  simp [Float64.ne, Float64.eq, h]

theorem Float64.sameNumber_of_ne_false {x y : Float64} (h : Float64.ne x y = false) :
    Float64.sameNumber x y := by
  unfold Float64.ne Float64.eq at h
  unfold Float64.sameNumber
  simp only [Bool.not_eq_false', Bool.and_eq_true, Bool.or_eq_true, decide_eq_true_eq] at h
  rcases h.2 with h1 | h1
  · exact Or.inl h1
  · exact Or.inr h1

theorem changedRecord_self {id : Int} {p : Entity} (h : p.nanFree = true) :
    changedRecord id p p = none := by
  unfold Entity.nanFree at h
  simp only [Bool.and_eq_true, Bool.not_eq_true'] at h
  obtain ⟨⟨⟨⟨⟨h1, h2⟩, h3⟩, h4⟩, h5⟩, h6⟩ := h
  simp [changedRecord, positionDiffers, velocityDiffers, healthDiffers, Float64.ne_self, h1, h2,
    h3, h4, h5, h6]

theorem eq_nil_of_components {α β γ : Type} {t : List α × List β × List γ}
    (h1 : t.1 = []) (h2 : t.2.1 = []) (h3 : t.2.2 = []) : t = ([], [], []) := by
  obtain ⟨a, b, c⟩ := t
  simp only at h1 h2 h3
  subst h1 h2 h3
  rfl

/-- C2 (amended): for every entity list `A` none of whose position or velocity components is a
NaN, `ComputeDelta A A` returns an empty changed list, an empty removed list and an empty
added list. -/
theorem computeDelta_self_of_nanFree (A : List Entity) (h : ∀ e ∈ A, e.nanFree = true) :
    ComputeDelta A A = ([], [], []) := by
  apply eq_nil_of_components
  · rw [List.eq_nil_iff_forall_not_mem]
    intro d hd
    obtain ⟨p, c, hp, hc, hrec⟩ := mem_changed.mp hd
    rw [hp] at hc
    simp only [Option.some.injEq] at hc
    subst hc
    rw [changedRecord_self (h p (lastWithId_some hp).2)] at hrec
    exact Option.noConfusion hrec
  · rw [List.eq_nil_iff_forall_not_mem]
    intro id hid
    exact (mem_removed.mp hid).2 (mem_removed.mp hid).1
  · rw [List.eq_nil_iff_forall_not_mem]
    intro e he
    have h1 := mem_added.mp he
    exact h1.2 (lastWithId_isSome.mp ⟨e, h1.1⟩)

/-- C2 (amended), at the default world: its twenty asteroids carry no NaN, and its delta
against itself is empty. -/
theorem computeDelta_self_of_nanFree_witness :
    (∀ e ∈ createInitialGameState, e.nanFree = true) ∧
      ComputeDelta createInitialGameState createInitialGameState = ([], [], []) :=
  ⟨by decide, computeDelta_self_of_nanFree createInitialGameState (by decide)⟩

/-- C2 as stated fails: for the one-entity list whose entity has a NaN x coordinate,
`ComputeDelta A A` reports that entity in `changed`, because `NaN != NaN` holds on line 42. -/
theorem computeDelta_self_nan :
    ComputeDelta [sampleEntity 1 "asteroid" Float64.nan 50]
        [sampleEntity 1 "asteroid" Float64.nan 50]
      = ([⟨1, some (Float64.nan, Float64.posZero, Float64.posZero), none, none⟩], [], []) := by
  decide

/-- C4: an id is in `removed` exactly when some entity of `prev` has it and no entity of `curr`
has it, and no record of `changed` carries an id that is in `removed`. -/
theorem removed_iff (prev curr : List Entity) :
    (∀ id, id ∈ (ComputeDelta prev curr).2.1 ↔
      (∃ e ∈ prev, e.ID = id) ∧ ¬ ∃ e ∈ curr, e.ID = id) ∧
    ∀ d ∈ (ComputeDelta prev curr).1, d.id ∉ (ComputeDelta prev curr).2.1 := by
  constructor
  · intro id
    rw [mem_removed]
    simp only [List.mem_map]
  · intro d hd hr
    obtain ⟨p, c, _, hc, _⟩ := mem_changed.mp hd
    exact (mem_removed.mp hr).2 (lastWithId_isSome.mp ⟨c, hc⟩)

/-- C5: the ids of `removed` of `ComputeDelta A B` are the ids of the entities of `added` of
`ComputeDelta B A`; and `added` of `ComputeDelta B A` holds exactly the entities of `A`
(unmodified, the last one when an id is repeated) whose id does not occur in `B`, one for
each such id. -/
theorem removed_ids_eq_added_ids_swapped (A B : List Entity) :
    (∀ id, id ∈ (ComputeDelta A B).2.1 ↔ id ∈ ((ComputeDelta B A).2.2).map Entity.ID) ∧
    (∀ e, e ∈ (ComputeDelta B A).2.2 ↔
      e ∈ A ∧ lastWithId e.ID A = some e ∧ ¬ ∃ b ∈ B, b.ID = e.ID) ∧
    (∀ id, (∃ a ∈ A, a.ID = id) → (¬ ∃ b ∈ B, b.ID = id) →
      ∃ e ∈ (ComputeDelta B A).2.2, e.ID = id) := by
  have hadd : ∀ e, e ∈ (ComputeDelta B A).2.2 ↔
      e ∈ A ∧ lastWithId e.ID A = some e ∧ ¬ ∃ b ∈ B, b.ID = e.ID := by
    intro e
    rw [mem_added]
    simp only [List.mem_map]
    constructor
    · rintro ⟨h1, h2⟩
      exact ⟨(lastWithId_some h1).2, h1, h2⟩
    · rintro ⟨_, h1, h2⟩
      exact ⟨h1, h2⟩
  have hex : ∀ id, (∃ a ∈ A, a.ID = id) → (¬ ∃ b ∈ B, b.ID = id) →
      ∃ e ∈ (ComputeDelta B A).2.2, e.ID = id := by
    intro id h1 h2
    obtain ⟨e, he⟩ := lastWithId_isSome.mpr (List.mem_map.mpr h1)
    have hid := (lastWithId_some he).1
    refine ⟨e, mem_added.mpr ⟨by rw [hid]; exact he, ?_⟩, hid⟩
    rw [hid]
    simpa only [List.mem_map] using h2
  refine ⟨?_, hadd, hex⟩
  intro id
  rw [mem_removed]
  constructor
  · rintro ⟨h1, h2⟩
    simp only [List.mem_map] at h1 h2
    obtain ⟨e, he, hid⟩ := hex id h1 h2
    exact List.mem_map.mpr ⟨e, he, hid⟩
  · intro h
    obtain ⟨e, he, hid⟩ := List.mem_map.mp h
    have h1 := mem_added.mp he
    rw [hid] at h1
    exact ⟨lastWithId_isSome.mp ⟨e, h1.1⟩, h1.2⟩

theorem changedRecord_isSome_iff (id : Int) (p c : Entity) :
    (∃ d, changedRecord id p c = some d) ↔
      (positionDiffers p c = true ∨ velocityDiffers p c = true ∨ p.HP ≠ c.HP) := by
  unfold changedRecord healthDiffers
  by_cases h1 : positionDiffers p c = true <;> by_cases h2 : velocityDiffers p c = true <;>
    by_cases h3 : p.HP = c.HP <;> simp [h1, h2, h3]

theorem changedRecord_id {id : Int} {p c : Entity} {d : EntityDelta}
    (h : changedRecord id p c = some d) : d = fieldDelta id p c := by
  unfold changedRecord at h
  split at h
  · exact (Option.some.inj h).symm
  · exact Option.noConfusion h

/-- C3 (amended): for an id present in both lists, with `p` and `c` the entities of `prev` and
`curr` with that id, `changed` has a record for the id exactly when position, velocity or
health differs under Go `!=` (a NaN component always differs, `+0` and `-0` never do); the
record holds the position of `c` exactly when the position differs, the velocity of `c`
exactly when the velocity differs, the health of `c` exactly when the health differs; an
entity free of NaN with identical fields has no record; and when only the health of entity
100 of the default world goes from 50 to 40 the result is one record with id 100 and health
40, with `removed` and `added` empty. -/
theorem changed_iff_differs (prev curr : List Entity) (id : Int) (p c : Entity)
    (hp : lastWithId id prev = some p) (hc : lastWithId id curr = some c) :
    ((∃ d ∈ (ComputeDelta prev curr).1, d.id = id) ↔
      (positionDiffers p c = true ∨ velocityDiffers p c = true ∨ p.HP ≠ c.HP)) ∧
    (∀ d ∈ (ComputeDelta prev curr).1, d.id = id →
      d.position = (if positionDiffers p c then some (c.X, c.Y, c.Z) else none) ∧
      d.velocity = (if velocityDiffers p c then some (c.VX, c.VY, c.VZ) else none) ∧
      d.health = (if p.HP ≠ c.HP then some c.HP else none)) ∧
    (p.nanFree = true → p.X = c.X → p.Y = c.Y → p.Z = c.Z → p.VX = c.VX → p.VY = c.VY →
      p.VZ = c.VZ → p.HP = c.HP → ∀ d ∈ (ComputeDelta prev curr).1, d.id ≠ id) ∧
    ComputeDelta createInitialGameState (setHealth 100 40 createInitialGameState)
      = ([⟨100, none, none, some 40⟩], [], []) := by
  have key : ∀ d ∈ (ComputeDelta prev curr).1, d.id = id → d = fieldDelta id p c ∧
      changedRecord id p c = some d := by
    intro d hd hid
    obtain ⟨p1, c1, hp1, hc1, hrec⟩ := mem_changed.mp hd
    rw [hid, hp] at hp1
    rw [hid, hc] at hc1
    rw [hid] at hrec
    cases Option.some.inj hp1
    cases Option.some.inj hc1
    exact ⟨changedRecord_id hrec, hrec⟩
  refine ⟨?_, ?_, ?_, by decide⟩
  · rw [← changedRecord_isSome_iff id p c]
    constructor
    · rintro ⟨d, hd, hid⟩
      exact ⟨d, (key d hd hid).2⟩
    · rintro ⟨d, hd⟩
      have hid : d.id = id := by rw [changedRecord_id hd]; rfl
      refine ⟨d, mem_changed.mpr ⟨p, c, ?_, ?_, ?_⟩, hid⟩
      · rw [hid]; exact hp
      · rw [hid]; exact hc
      · rw [hid]; exact hd
  · intro d hd hid
    rw [(key d hd hid).1]
    refine ⟨rfl, rfl, ?_⟩
    simp only [fieldDelta, healthDiffers, decide_eq_true_eq]
  · intro hnan hx hy hz hvx hvy hvz hhp d hd hid
    have h2 := (key d hd hid).2
    have hex := (changedRecord_isSome_iff id p c).mp ⟨d, h2⟩
    unfold Entity.nanFree at hnan
    simp only [Bool.and_eq_true, Bool.not_eq_true'] at hnan
    obtain ⟨⟨⟨⟨⟨h1, h2⟩, h3⟩, h4⟩, h5⟩, h6⟩ := hnan
    simp [positionDiffers, velocityDiffers, ← hx, ← hy, ← hz, ← hvx, ← hvy, ← hvz,
      Float64.ne_self, h1, h2, h3, h4, h5, h6, hhp] at hex

/-- C3 (amended), at a one-entity list whose health goes from 50 to 40: the entity is the one
with id 100 in both lists and `changed` has a record for it. -/
theorem changed_iff_differs_witness :
    lastWithId 100 [sampleEntity 100 "asteroid" Float64.posZero 50]
        = some (sampleEntity 100 "asteroid" Float64.posZero 50) ∧
      lastWithId 100 [sampleEntity 100 "asteroid" Float64.posZero 40]
        = some (sampleEntity 100 "asteroid" Float64.posZero 40) ∧
      ∃ d ∈ (ComputeDelta [sampleEntity 100 "asteroid" Float64.posZero 50]
        [sampleEntity 100 "asteroid" Float64.posZero 40]).1, d.id = 100 :=
  ⟨by decide, by decide, (changed_iff_differs [sampleEntity 100 "asteroid" Float64.posZero 50]
    [sampleEntity 100 "asteroid" Float64.posZero 40] 100
    (sampleEntity 100 "asteroid" Float64.posZero 50)
    (sampleEntity 100 "asteroid" Float64.posZero 40) (by decide) (by decide)).1.mpr
    (Or.inr (Or.inr (by decide)))⟩

/-- C3 as stated fails: an entity with a NaN x coordinate that is identical in both snapshots
does appear in `changed`. -/
theorem changed_contains_identical_nan :
    lastWithId 1 [sampleEntity 1 "asteroid" Float64.nan 50]
        = some (sampleEntity 1 "asteroid" Float64.nan 50) ∧
      ∃ d ∈ (ComputeDelta [sampleEntity 1 "asteroid" Float64.nan 50]
          [sampleEntity 1 "asteroid" Float64.nan 50]).1, d.id = 1 := by
  decide

theorem applyRecord_ID (r : EntityDelta) (e : Entity) : (applyRecord r e).ID = e.ID := by
  unfold applyRecord
  split
  · cases r.position <;> cases r.velocity <;> cases r.health <;> rfl
  · rfl

theorem applyRecord_Kind (r : EntityDelta) (e : Entity) : (applyRecord r e).Kind = e.Kind := by
  unfold applyRecord
  split
  · cases r.position <;> cases r.velocity <;> cases r.health <;> rfl
  · rfl

theorem applyRecord_of_ne {r : EntityDelta} {e : Entity} (h : r.id ≠ e.ID) :
    applyRecord r e = e := by
  unfold applyRecord
  rw [if_neg (fun h2 => h h2.symm)]

theorem applyRecord_idem (r : EntityDelta) (e : Entity) :
    applyRecord r (applyRecord r e) = applyRecord r e := by
  by_cases h : e.ID = r.id
  · unfold applyRecord
    cases hp : r.position <;> cases hv : r.velocity <;> cases hh : r.health <;> simp [h]
  · rw [applyRecord_of_ne (fun h2 => h h2.symm), applyRecord_of_ne (fun h2 => h h2.symm)]

theorem foldl_map_applyRecord (l : List EntityDelta) (xs : List Entity) :
    l.foldl (fun es r => es.map (applyRecord r)) xs
      = xs.map (fun e => l.foldl (fun e r => applyRecord r e) e) := by
  induction l generalizing xs with
  | nil => simp
  | cons r l ih =>
    simp only [List.foldl_cons]
    rw [ih, List.map_map]
    rfl

theorem foldl_applyRecord_of_ne (l : List EntityDelta) (e : Entity)
    (h : ∀ r ∈ l, r.id ≠ e.ID) : l.foldl (fun e r => applyRecord r e) e = e := by
  induction l with
  | nil => rfl
  | cons r l ih =>
    simp only [List.foldl_cons]
    rw [applyRecord_of_ne (h r (List.mem_cons_self _ _))]
    exact ih (fun r2 hr2 => h r2 (List.mem_cons_of_mem _ hr2))

theorem foldl_applyRecord_same (R : EntityDelta) (l : List EntityDelta) (e : Entity)
    (h : ∀ r ∈ l, r.id = e.ID → r = R) :
    l.foldl (fun e r => applyRecord r e) e = e ∨
      l.foldl (fun e r => applyRecord r e) e = applyRecord R e := by
  have aux : ∀ (l : List EntityDelta) (x : Entity), x.ID = e.ID →
      (∀ r ∈ l, r.id = e.ID → r = R) → (x = e ∨ x = applyRecord R e) →
      l.foldl (fun e r => applyRecord r e) x = e ∨
        l.foldl (fun e r => applyRecord r e) x = applyRecord R e := by
    intro l
    induction l with
    | nil => intro x _ _ hx; exact hx
    | cons r l ih =>
      intro x hid hl hx
      simp only [List.foldl_cons]
      apply ih (applyRecord r x) (by rw [applyRecord_ID, hid])
        (fun r2 hr2 => hl r2 (List.mem_cons_of_mem _ hr2))
      by_cases hr : r.id = e.ID
      · have hrR := hl r (List.mem_cons_self _ _) hr
        subst hrR
        rcases hx with rfl | rfl
        · exact Or.inr rfl
        · exact Or.inr (applyRecord_idem _ _)
      · rw [applyRecord_of_ne (by rw [hid]; exact hr)]
        exact hx
  exact aux l e rfl h (Or.inl rfl)

theorem foldl_applyRecord_of_mem (R : EntityDelta) (l : List EntityDelta) (e : Entity)
    (hR : R.id = e.ID) (hin : R ∈ l) (h : ∀ r ∈ l, r.id = e.ID → r = R) :
    l.foldl (fun e r => applyRecord r e) e = applyRecord R e := by
  have aux : ∀ (l : List EntityDelta), R ∈ l → (∀ r ∈ l, r.id = e.ID → r = R) →
      ∀ x, x.ID = e.ID → (x = e ∨ x = applyRecord R e) →
        l.foldl (fun e r => applyRecord r e) x = applyRecord R e := by
    intro l
    induction l with
    | nil => intro hm; simp at hm
    | cons r l ih =>
      intro hm hl x hx hxe
      simp only [List.foldl_cons]
      by_cases hr : r.id = e.ID
      · have hrR := hl r (List.mem_cons_self _ _) hr
        have hstep : applyRecord r x = applyRecord R e := by
          rw [hrR]
          rcases hxe with rfl | rfl
          · rfl
          · exact applyRecord_idem _ _
        rw [hstep]
        rcases foldl_applyRecord_same R l (applyRecord R e)
            (fun r2 hr2 hid2 => hl r2 (List.mem_cons_of_mem _ hr2)
              (by rw [hid2, applyRecord_ID])) with h1 | h1
        · exact h1
        · rw [h1, applyRecord_idem]
      · have hne : R ≠ r := fun hh => hr (by rw [← hh]; exact hR)
        have hm2 : R ∈ l := by
          rcases List.mem_cons.mp hm with h0 | h0
          · exact absurd h0 hne
          · exact h0
        rw [applyRecord_of_ne (by rw [hx]; exact hr)]
        exact ih hm2 (fun r2 hr2 => hl r2 (List.mem_cons_of_mem _ hr2)) x hx hxe
  exact aux l hin h e rfl (Or.inl rfl)

theorem agrees_of_not_differs {e b : Entity} (hid : e.ID = b.ID)
    (h1 : positionDiffers e b = false) (h2 : velocityDiffers e b = false)
    (h3 : healthDiffers e b = false) : e.agrees b := by
  unfold positionDiffers at h1
  unfold velocityDiffers at h2
  unfold healthDiffers at h3
  simp only [Bool.or_eq_false_iff] at h1 h2
  simp only [ne_eq, decide_not, Bool.not_eq_false', decide_eq_true_eq] at h3
  exact ⟨hid, h3, Float64.sameNumber_of_ne_false h1.1.1, Float64.sameNumber_of_ne_false h1.1.2,
    Float64.sameNumber_of_ne_false h1.2, Float64.sameNumber_of_ne_false h2.1.1,
    Float64.sameNumber_of_ne_false h2.1.2, Float64.sameNumber_of_ne_false h2.2⟩

theorem applyRecord_fieldDelta_eq (e b : Entity) :
    applyRecord (fieldDelta e.ID e b) e =
      { ID := e.ID, Kind := e.Kind
        X := if positionDiffers e b then b.X else e.X
        Y := if positionDiffers e b then b.Y else e.Y
        Z := if positionDiffers e b then b.Z else e.Z
        VX := if velocityDiffers e b then b.VX else e.VX
        VY := if velocityDiffers e b then b.VY else e.VY
        VZ := if velocityDiffers e b then b.VZ else e.VZ
        HP := if healthDiffers e b then b.HP else e.HP } := by
  unfold applyRecord fieldDelta
  rw [if_pos rfl]
  cases positionDiffers e b <;> cases velocityDiffers e b <;> cases healthDiffers e b <;> rfl

theorem sameNumber_ite_X {e b : Entity} :
    Float64.sameNumber (if positionDiffers e b then b.X else e.X) b.X := by
  cases h : positionDiffers e b
  · unfold positionDiffers at h
    simp only [Bool.or_eq_false_iff] at h
    simpa using Float64.sameNumber_of_ne_false h.1.1
  · exact Or.inl (by simp)

theorem sameNumber_ite_Y {e b : Entity} :
    Float64.sameNumber (if positionDiffers e b then b.Y else e.Y) b.Y := by
  cases h : positionDiffers e b
  · unfold positionDiffers at h
    simp only [Bool.or_eq_false_iff] at h
    simpa using Float64.sameNumber_of_ne_false h.1.2
  · exact Or.inl (by simp)

theorem sameNumber_ite_Z {e b : Entity} :
    Float64.sameNumber (if positionDiffers e b then b.Z else e.Z) b.Z := by
  cases h : positionDiffers e b
  · unfold positionDiffers at h
    simp only [Bool.or_eq_false_iff] at h
    simpa using Float64.sameNumber_of_ne_false h.2
  · exact Or.inl (by simp)

theorem sameNumber_ite_VX {e b : Entity} :
    Float64.sameNumber (if velocityDiffers e b then b.VX else e.VX) b.VX := by
  cases h : velocityDiffers e b
  · unfold velocityDiffers at h
    simp only [Bool.or_eq_false_iff] at h
    simpa using Float64.sameNumber_of_ne_false h.1.1
  · exact Or.inl (by simp)

theorem sameNumber_ite_VY {e b : Entity} :
    Float64.sameNumber (if velocityDiffers e b then b.VY else e.VY) b.VY := by
  cases h : velocityDiffers e b
  · unfold velocityDiffers at h
    simp only [Bool.or_eq_false_iff] at h
    simpa using Float64.sameNumber_of_ne_false h.1.2
  · exact Or.inl (by simp)

theorem sameNumber_ite_VZ {e b : Entity} :
    Float64.sameNumber (if velocityDiffers e b then b.VZ else e.VZ) b.VZ := by
  cases h : velocityDiffers e b
  · unfold velocityDiffers at h
    simp only [Bool.or_eq_false_iff] at h
    simpa using Float64.sameNumber_of_ne_false h.2
  · exact Or.inl (by simp)

theorem agrees_applyRecord_fieldDelta {e b : Entity} (hid : e.ID = b.ID) :
    (applyRecord (fieldDelta e.ID e b) e).agrees b := by
  rw [applyRecord_fieldDelta_eq]
  refine ⟨hid, ?_, sameNumber_ite_X, sameNumber_ite_Y, sameNumber_ite_Z, sameNumber_ite_VX,
    sameNumber_ite_VY, sameNumber_ite_VZ⟩
  show (if healthDiffers e b then b.HP else e.HP) = b.HP
  cases h : healthDiffers e b
  · unfold healthDiffers at h
    simpa using h
  · simp

/-- C1 (amended): for every list `A` without a repeated id and every list `B`, rebuilding from
`A` and `ComputeDelta A B` yields a collection whose ids are exactly the ids of `B`, and each
rebuilt entity `r` has, with `b` the entity of `B` of that id, the id and health of `b` and
position and velocity components that are the same numbers as those of `b` (identical bits,
or zeros of either sign); an entity whose id is not in `A` is `b` itself, kind included, and
an entity whose id is in `A` keeps the kind it has in `A`. -/
theorem roundTrip_of_nodup (A B : List Entity) (hA : (A.map Entity.ID).Nodup) :
    (∀ id, id ∈ (applyDelta A (ComputeDelta A B)).map Entity.ID ↔ id ∈ B.map Entity.ID) ∧
    ∀ r ∈ applyDelta A (ComputeDelta A B), ∃ b ∈ B,
      lastWithId r.ID B = some b ∧ r.agrees b ∧
      (r.ID ∉ A.map Entity.ID → r = b) ∧ (∀ a ∈ A, a.ID = r.ID → r.Kind = a.Kind) := by
  have hmem : ∀ r, r ∈ applyDelta A (ComputeDelta A B) ↔
      ∃ e, ((e ∈ A ∧ e.ID ∉ (ComputeDelta A B).2.1) ∨ e ∈ (ComputeDelta A B).2.2) ∧
        (ComputeDelta A B).1.foldl (fun e r => applyRecord r e) e = r := by
    intro r
    unfold applyDelta
    rw [foldl_map_applyRecord, List.mem_map]
    simp only [List.mem_append, List.mem_filter, decide_eq_true_eq]
  have hfoldID : ∀ (l : List EntityDelta) (e : Entity),
      (l.foldl (fun e r => applyRecord r e) e).ID = e.ID := by
    intro l
    induction l with
    | nil => intro e; rfl
    | cons r l ih => intro e; simp only [List.foldl_cons]; rw [ih, applyRecord_ID]
  have hfoldKind : ∀ (l : List EntityDelta) (e : Entity),
      (l.foldl (fun e r => applyRecord r e) e).Kind = e.Kind := by
    intro l
    induction l with
    | nil => intro e; rfl
    | cons r l ih => intro e; simp only [List.foldl_cons]; rw [ih, applyRecord_Kind]
  -- every source entity of the rebuilt list, with its counterpart in `B`
  have hsrc : ∀ e, ((e ∈ A ∧ e.ID ∉ (ComputeDelta A B).2.1) ∨ e ∈ (ComputeDelta A B).2.2) →
      ∃ b ∈ B, lastWithId e.ID B = some b ∧
        ((ComputeDelta A B).1.foldl (fun e r => applyRecord r e) e).agrees b ∧
        (e.ID ∉ A.map Entity.ID →
          (ComputeDelta A B).1.foldl (fun e r => applyRecord r e) e = b) ∧
        (∀ a ∈ A, a.ID = e.ID → e.Kind = a.Kind) := by
    intro e he
    rcases he with ⟨heA, hnr⟩ | hadd
    · have hidA : e.ID ∈ A.map Entity.ID := List.mem_map.mpr ⟨e, heA, rfl⟩
      have hB : e.ID ∈ B.map Entity.ID := by
        by_contra hn
        exact hnr (mem_removed.mpr ⟨hidA, hn⟩)
      obtain ⟨b, hb⟩ := lastWithId_isSome.mpr hB
      have hbid : e.ID = b.ID := (lastWithId_some hb).1.symm
      have hpe : lastWithId e.ID A = some e := lastWithId_of_nodup hA heA
      have hall : ∀ r ∈ (ComputeDelta A B).1, r.id = e.ID → r = fieldDelta e.ID e b := by
        intro r hr hid
        obtain ⟨p1, c1, hp1, hc1, hrec⟩ := mem_changed.mp hr
        rw [hid, hpe] at hp1
        rw [hid, hb] at hc1
        rw [hid] at hrec
        cases Option.some.inj hp1
        cases Option.some.inj hc1
        exact changedRecord_id hrec
      refine ⟨b, (lastWithId_some hb).2, hb, ?_, fun h => absurd hidA h, ?_⟩
      · by_cases hd : (positionDiffers e b || velocityDiffers e b || healthDiffers e b) = true
        · have hin : fieldDelta e.ID e b ∈ (ComputeDelta A B).1 :=
            mem_changed.mpr ⟨e, b, hpe, hb, by
              show changedRecord e.ID e b = some (fieldDelta e.ID e b)
              unfold changedRecord; rw [if_pos hd]⟩
          rw [foldl_applyRecord_of_mem (fieldDelta e.ID e b) _ e rfl hin hall]
          exact agrees_applyRecord_fieldDelta hbid
        · have hno : ∀ r ∈ (ComputeDelta A B).1, r.id ≠ e.ID := by
            intro r hr hid
            have hrR := hall r hr hid
            obtain ⟨p1, c1, hp1, hc1, hrec⟩ := mem_changed.mp hr
            rw [hid, hpe] at hp1
            rw [hid, hb] at hc1
            rw [hid] at hrec
            cases Option.some.inj hp1
            cases Option.some.inj hc1
            unfold changedRecord at hrec
            rw [if_neg hd] at hrec
            exact Option.noConfusion hrec
          rw [foldl_applyRecord_of_ne _ e hno]
          simp only [Bool.or_eq_true, not_or, Bool.not_eq_true] at hd
          exact agrees_of_not_differs hbid hd.1.1 hd.1.2 hd.2
      · intro a ha haid
        have : lastWithId a.ID A = some a := lastWithId_of_nodup hA ha
        rw [haid, hpe] at this
        rw [Option.some.inj this]
    · have h1 := mem_added.mp hadd
      have hno : ∀ r ∈ (ComputeDelta A B).1, r.id ≠ e.ID := by
        intro r hr hid
        obtain ⟨p1, _, hp1, _, _⟩ := mem_changed.mp hr
        rw [hid] at hp1
        exact h1.2 (lastWithId_isSome.mp ⟨p1, hp1⟩)
      rw [foldl_applyRecord_of_ne _ e hno]
      refine ⟨e, (lastWithId_some h1.1).2, h1.1, ?_, fun _ => rfl, ?_⟩
      · exact ⟨rfl, rfl, Or.inl rfl, Or.inl rfl, Or.inl rfl, Or.inl rfl, Or.inl rfl, Or.inl rfl⟩
      · intro a ha haid
        exact absurd (List.mem_map.mpr ⟨a, ha, haid⟩) h1.2
  constructor
  · intro id
    constructor
    · intro h
      obtain ⟨r, hr, hid⟩ := List.mem_map.mp h
      obtain ⟨e, he, hfe⟩ := (hmem r).mp hr
      obtain ⟨b, _, hb, _⟩ := hsrc e he
      have : r.ID = e.ID := by rw [← hfe, hfoldID]
      rw [← hid, this]
      exact lastWithId_isSome.mp ⟨b, hb⟩
    · intro h
      obtain ⟨b, hb⟩ := lastWithId_isSome.mpr h
      by_cases hA2 : id ∈ A.map Entity.ID
      · obtain ⟨a, ha, haid⟩ := List.mem_map.mp hA2
        have hnr : a.ID ∉ (ComputeDelta A B).2.1 := by
          intro hr
          rw [haid] at hr
          exact (mem_removed.mp hr).2 h
        refine List.mem_map.mpr ⟨_, (hmem _).mpr ⟨a, Or.inl ⟨ha, hnr⟩, rfl⟩, ?_⟩
        rw [hfoldID, haid]
      · have hbid := (lastWithId_some hb).1
        have hadd : b ∈ (ComputeDelta A B).2.2 :=
          mem_added.mpr ⟨by rw [hbid]; exact hb, by rw [hbid]; exact hA2⟩
        refine List.mem_map.mpr ⟨_, (hmem _).mpr ⟨b, Or.inr hadd, rfl⟩, ?_⟩
        rw [hfoldID, hbid]
  · intro r hr
    obtain ⟨e, he, hfe⟩ := (hmem r).mp hr
    obtain ⟨b, hbB, hb, hag, hnew, hkind⟩ := hsrc e he
    have hid : r.ID = e.ID := by rw [← hfe, hfoldID]
    have hk : r.Kind = e.Kind := by rw [← hfe, hfoldKind]
    refine ⟨b, hbB, by rw [hid]; exact hb, by rw [← hfe]; exact hag, ?_, ?_⟩
    · intro h
      rw [← hfe]
      exact hnew (by rw [← hid]; exact h)
    · intro a ha haid
      rw [hk]
      exact hkind a ha (by rw [haid, hid])

/-- C1 (amended), at a two-entity list: the ids of `A` are distinct and the rebuilt collection
has exactly the ids of `B`. -/
theorem roundTrip_of_nodup_witness :
    ([sampleEntity 1 "asteroid" Float64.posZero 50,
        sampleEntity 2 "asteroid" Float64.posZero 50].map Entity.ID).Nodup ∧
      ∀ id, id ∈ (applyDelta [sampleEntity 1 "asteroid" Float64.posZero 50,
          sampleEntity 2 "asteroid" Float64.posZero 50]
        (ComputeDelta [sampleEntity 1 "asteroid" Float64.posZero 50,
          sampleEntity 2 "asteroid" Float64.posZero 50]
          [sampleEntity 1 "asteroid" Float64.posZero 40,
            sampleEntity 3 "ship" Float64.negZero 10])).map Entity.ID
        ↔ id ∈ [sampleEntity 1 "asteroid" Float64.posZero 40,
            sampleEntity 3 "ship" Float64.negZero 10].map Entity.ID :=
  ⟨by decide, (roundTrip_of_nodup _ _ (by decide)).1⟩

/-- C1 as stated fails, for three reasons: a delta carries no kind, so an entity whose kind
changed is rebuilt with its old kind; `ComputeDelta` compares the last entity of each id, so
an earlier entity of `A` with a repeated id is left as it was; and `+0 != -0` is false on
line 42, so a zero that changed sign is rebuilt with its old sign. -/
theorem roundTrip_exact_fails :
    ¬ RoundTripExact [sampleEntity 1 "asteroid" Float64.posZero 50]
        [sampleEntity 1 "ship" Float64.posZero 50] ∧
    ¬ RoundTripExact [sampleEntity 1 "asteroid" Float64.posZero 50,
          sampleEntity 1 "asteroid" Float64.posZero 70]
        [sampleEntity 1 "asteroid" Float64.posZero 70] ∧
    ¬ RoundTripExact [sampleEntity 1 "asteroid" Float64.posZero 50]
        [sampleEntity 1 "asteroid" Float64.negZero 50] := by
  decide

/-! ## Properties of the hub -/

theorem exists_state_of_finalState {α : Type} (w0 : World) (es : List Event) (p : World → α)
    (v : α) (h : (finalState (run w0 es)).map p = some v) :
    ∃ w, run w0 es = Outcome.state w ∧ p w = v := by
  cases hr : run w0 es with
  | state w =>
    rw [hr] at h
    exact ⟨w, rfl, Option.some.inj h⟩
  | panic f => rw [hr] at h; exact Option.noConfusion h
  | refused => rw [hr] at h; exact Option.noConfusion h

theorem reachable_of_run {es : List Event} {w : World} (h : run newHub es = Outcome.state w) :
    Reachable w := ⟨es, h⟩

theorem delta_lengths_zero_iff (d : List EntityDelta × List Int × List Entity) :
    (d.1.length = 0 ∧ d.2.1.length = 0 ∧ d.2.2.length = 0) ↔ d = ([], [], []) := by
  obtain ⟨a, b, c⟩ := d
  simp [List.length_eq_zero]

theorem broadcastLobby_frame {now : Nat} {L : String} {cl : List ClientRef} {w w1 : World}
    (h : broadcastLobby now L cl w = .ok w1) :
    w1.hub.gameState = w.hub.gameState ∧ w1.hub.lobbies = w.hub.lobbies ∧
      ∀ L2, L2 ≠ L → w1.hub.lastState.lookup L2 = w.hub.lastState.lookup L2 := by
  unfold broadcastLobby at h
  split at h
  · cases h; exact ⟨rfl, rfl, fun _ _ => rfl⟩
  · simp only at h
    split at h
    · split at h
      · exact Except.noConfusion h
      · cases h
        exact ⟨rfl, rfl, fun L2 hne => AList.lookup_insert_ne hne⟩
    · split at h
      · cases h; exact ⟨rfl, rfl, fun _ _ => rfl⟩
      · split at h
        · exact Except.noConfusion h
        · cases h
          exact ⟨rfl, rfl, fun L2 hne => AList.lookup_insert_ne hne⟩

theorem broadcastLobby_snapshot {now : Nat} {L : String} {cl : List ClientRef} {w w1 : World}
    (h : broadcastLobby now L cl w = .ok w1) (hcl : cl ≠ []) :
    (w.hub.lastState.lookup L = none →
      w1.hub.lastState.lookup L = some ((w.hub.gameState.lookup L).getD [])) ∧
    (∀ prev, w.hub.lastState.lookup L = some prev →
      ComputeDelta prev ((w.hub.gameState.lookup L).getD []) ≠ ([], [], []) →
      w1.hub.lastState.lookup L = some ((w.hub.gameState.lookup L).getD [])) ∧
    (∀ prev, w.hub.lastState.lookup L = some prev →
      ComputeDelta prev ((w.hub.gameState.lookup L).getD []) = ([], [], []) →
      w1.hub.lastState.lookup L = some prev) := by
  unfold broadcastLobby at h
  have hlen : ¬ cl.length = 0 := fun h0 => hcl (List.length_eq_zero.mp h0)
  rw [if_neg hlen] at h
  simp only at h
  split at h
  · rename_i hls
    split at h
    · exact Except.noConfusion h
    · cases h
      refine ⟨fun _ => ?_, fun prev hp => ?_, fun prev hp => ?_⟩
      · simp [cloneEntities, AList.lookup_insert]
      · rw [hls] at hp; exact Option.noConfusion hp
      · rw [hls] at hp; exact Option.noConfusion hp
  · rename_i prev0 hls
    split at h
    · rename_i hz
      cases h
      have hz2 := (delta_lengths_zero_iff _).mp hz
      refine ⟨fun hn => ?_, fun prev hp hne => ?_, fun prev hp _ => ?_⟩
      · rw [hls] at hn; exact Option.noConfusion hn
      · rw [hls] at hp; cases Option.some.inj hp; exact absurd hz2 hne
      · exact hp
    · rename_i hz
      split at h
      · exact Except.noConfusion h
      · cases h
        refine ⟨fun hn => ?_, fun prev hp _ => ?_, fun prev hp he => ?_⟩
        · rw [hls] at hn; exact Option.noConfusion hn
        · simp [cloneEntities, AList.lookup_insert]
        · rw [hls] at hp; cases Option.some.inj hp
          exact absurd ((delta_lengths_zero_iff _).mpr he) hz

theorem broadcastLoop_frame {now : Nat} :
    ∀ (l : List (Sigma (fun _ : String => List ClientRef))) {w w2 : World},
      broadcastLoop now l w = .ok w2 →
      w2.hub.gameState = w.hub.gameState ∧ w2.hub.lobbies = w.hub.lobbies ∧
        ∀ L, L ∉ l.map Sigma.fst → w2.hub.lastState.lookup L = w.hub.lastState.lookup L := by
  intro l
  induction l with
  | nil =>
    intro w w2 h
    cases h
    exact ⟨rfl, rfl, fun _ _ => rfl⟩
  | cons e rest ih =>
    intro w w2 h
    unfold broadcastLoop at h
    split at h
    · exact Except.noConfusion h
    · rename_i w1 h1
      obtain ⟨g1, l1, f1⟩ := broadcastLobby_frame h1
      obtain ⟨g2, l2, f2⟩ := ih h
      refine ⟨g2.trans g1, l2.trans l1, fun L hL => ?_⟩
      simp only [List.map_cons, List.mem_cons, not_or] at hL
      rw [f2 L hL.2, f1 L hL.1]

theorem broadcastLoop_snapshot {now : Nat} :
    ∀ (l : List (Sigma (fun _ : String => List ClientRef))) {w w2 : World},
      (l.map Sigma.fst).Nodup → broadcastLoop now l w = .ok w2 →
      ∀ L cl, Sigma.mk L cl ∈ l → cl ≠ [] →
        (w.hub.lastState.lookup L = none →
          w2.hub.lastState.lookup L = some ((w.hub.gameState.lookup L).getD [])) ∧
        (∀ prev, w.hub.lastState.lookup L = some prev →
          ComputeDelta prev ((w.hub.gameState.lookup L).getD []) ≠ ([], [], []) →
          w2.hub.lastState.lookup L = some ((w.hub.gameState.lookup L).getD [])) ∧
        (∀ prev, w.hub.lastState.lookup L = some prev →
          ComputeDelta prev ((w.hub.gameState.lookup L).getD []) = ([], [], []) →
          w2.hub.lastState.lookup L = some prev) := by
  intro l
  induction l with
  | nil => intro w w2 _ _ L cl hm; simp at hm
  | cons e rest ih =>
    intro w w2 hnd h L cl hm hcl
    simp only [List.map_cons, List.nodup_cons] at hnd
    unfold broadcastLoop at h
    split at h
    · exact Except.noConfusion h
    · rename_i w1 h1
      obtain ⟨g1, _, f1⟩ := broadcastLobby_frame h1
      rcases List.mem_cons.mp hm with heq | hrest
      · subst heq
        obtain ⟨_, _, f2⟩ := broadcastLoop_frame rest h
        have hs := broadcastLobby_snapshot h1 hcl
        rw [f2 L hnd.1]
        exact hs
      · have hne : L ≠ e.1 := by
          intro hh
          apply hnd.1
          rw [← hh]
          exact List.mem_map.mpr ⟨⟨L, cl⟩, hrest, rfl⟩
        have hs := ih hnd.2 h L cl hrest hcl
        rw [g1, f1 L hne] at hs
        exact hs

/-- C7 (amended): after a Tick, for every lobby with at least one member: the entities and the
members are as before the tick; when there was no previous snapshot (a STATE is sent), or
there was one and the delta against it is not empty (a STATE_DELTA is sent), the previous
snapshot is now the current entity collection; when the delta is empty (nothing is sent) the
previous snapshot is left as it was. -/
theorem tick_snapshot (now : Nat) (w w2 : World) (h : broadcastGameState now w = .ok w2)
    (L : String) (hm : members w L ≠ []) :
    w2.hub.gameState = w.hub.gameState ∧ members w2 L = members w L ∧
    (w.hub.lastState.lookup L = none →
      w2.hub.lastState.lookup L = some ((w.hub.gameState.lookup L).getD [])) ∧
    (∀ prev, w.hub.lastState.lookup L = some prev →
      ComputeDelta prev ((w.hub.gameState.lookup L).getD []) ≠ ([], [], []) →
      w2.hub.lastState.lookup L = some ((w.hub.gameState.lookup L).getD [])) ∧
    (∀ prev, w.hub.lastState.lookup L = some prev →
      ComputeDelta prev ((w.hub.gameState.lookup L).getD []) = ([], [], []) →
      w2.hub.lastState.lookup L = some prev) := by
  unfold broadcastGameState at h
  obtain ⟨g, l, _⟩ := broadcastLoop_frame _ h
  refine ⟨g, by unfold members; rw [l], ?_⟩
  unfold members at hm
  cases hl : w.hub.lobbies.lookup L with
  | none => rw [hl] at hm; exact absurd rfl hm
  | some cl =>
    rw [hl] at hm
    have hmem : Sigma.mk L cl ∈ w.hub.lobbies.entries :=
      (AList.mem_lookup_iff (s := w.hub.lobbies)).mp hl
    exact broadcastLoop_snapshot _ w.hub.lobbies.keys_nodup h L cl hmem hm

/-- C7 (amended), at `staleKindWorld`: the tick succeeds, lobby `"alpha"` has a member, and
the entities are as before the tick. -/
theorem tick_snapshot_witness :
    broadcastGameState 66 staleKindWorld = .ok staleKindWorldTicked ∧
      members staleKindWorld "alpha" ≠ [] ∧
      staleKindWorldTicked.hub.gameState = staleKindWorld.hub.gameState :=
  ⟨rfl, by decide, (tick_snapshot 66 staleKindWorld staleKindWorldTicked rfl "alpha"
    (by decide)).1⟩

/-- C7 as stated fails: in `staleKindWorld` the delta is empty although the entity changed
kind, so the tick sends nothing and the previous snapshot of `"alpha"`, a lobby with a
member, still differs from its current entities after the tick. -/
theorem tick_keeps_stale_snapshot :
    ∃ w, run staleKindWorld [Event.tick 66] = Outcome.state w ∧
      (members w "alpha", w.hub.lastState.lookup "alpha", w.hub.gameState.lookup "alpha")
        = ([1], some [sampleEntity 100 "asteroid" Float64.posZero 50],
            some [sampleEntity 100 "debris" Float64.posZero 50]) :=
  exists_state_of_finalState _ _ _ _ (by decide)

/-- C6 fails on the code: after the only member of `"alpha"` unregisters, the lobby has no
entity state but keeps its previous snapshot; and when a second client then joins `"alpha"`,
the next tick sends it nothing: its queue holds the JOINED message only. -/
theorem rejoined_lobby_gets_no_state :
    (∃ w, run newHub [Event.register 1, Event.join 1 "alpha" 0, Event.tick 66,
        Event.unregister 1] = Outcome.state w ∧
      (w.hub.gameState.lookup "alpha", w.hub.lastState.lookup "alpha")
        = (none, some createInitialGameState)) ∧
    ∃ w, run newHub [Event.register 1, Event.join 1 "alpha" 0, Event.tick 66,
        Event.unregister 1, Event.register 2, Event.join 2 "alpha" 100, Event.tick 132]
          = Outcome.state w ∧
      queueOf w 2 = [Message.joined 0 100 2 "alpha"
          (Float64.posZero, Float64.posZero, Float64.posZero) createInitialGameState] :=
  ⟨exists_state_of_finalState _ _ _ _ (by decide),
    exists_state_of_finalState _ _ _ _ (by decide)⟩

/-- C8 fails on the code: a client that joined two lobbies, or the lobby named by the empty
string, stays in a member list when it is unregistered, and the next tick panics sending to
its closed queue. -/
theorem tick_panics_after_unregister :
    run newHub [Event.register 1, Event.join 1 "alpha" 0, Event.join 1 "beta" 10,
        Event.unregister 1, Event.tick 66] = Outcome.panic Fault.sendOnClosedChannel ∧
    run newHub [Event.register 1, Event.join 1 "" 0, Event.unregister 1, Event.tick 66]
      = Outcome.panic Fault.sendOnClosedChannel := by
  decide

/-- C9 fails on the code: after `Unregister` of a client that joined `"alpha"` and then
`"beta"`, the client is out of the registry and its queue is closed, but it is still a
member of `"alpha"`; and after `Unregister` of the only member of the lobby named by the
empty string, the client is still a member of that lobby and the lobby keeps its entity
state. -/
theorem unregister_leaves_member :
    (∃ w, run newHub [Event.register 1, Event.join 1 "alpha" 0, Event.join 1 "beta" 10,
        Event.unregister 1] = Outcome.state w ∧
      (w.hub.clients.lookup 1, (w.heap.lookup 1).map (fun cl => cl.send.closed),
          members w "alpha", members w "beta")
        = (none, some true, [1], [])) ∧
    ∃ w, run newHub [Event.register 1, Event.join 1 "" 0, Event.unregister 1]
        = Outcome.state w ∧
      (w.hub.clients.lookup 1, (w.heap.lookup 1).map (fun cl => cl.send.closed),
          members w "", w.hub.gameState.lookup "")
        = (none, some true, [1], some createInitialGameState) :=
  ⟨exists_state_of_finalState _ _ _ _ (by decide),
    exists_state_of_finalState _ _ _ _ (by decide)⟩

/-- C10 fails on the code: a registered client that sends JOIN for `"alpha"` and then for
`"beta"` is a member of both lobbies while its own lobby field names `"beta"`; and one that
sends JOIN for `"alpha"` twice is in the member list of `"alpha"` twice. -/
theorem client_in_two_lobbies :
    (∃ w, Reachable w ∧
      (members w "alpha", members w "beta", (w.heap.lookup 1).map (fun cl => cl.lobby))
        = ([1], [1], some "beta")) ∧
    ∃ w, Reachable w ∧ members w "alpha" = [1, 1] := by
  obtain ⟨w1, h1, p1⟩ := exists_state_of_finalState newHub
    [Event.register 1, Event.join 1 "alpha" 0, Event.join 1 "beta" 10]
    (fun w => (members w "alpha", members w "beta", (w.heap.lookup 1).map (fun cl => cl.lobby)))
    ([1], [1], some "beta") (by decide)
  obtain ⟨w2, h2, p2⟩ := exists_state_of_finalState newHub
    [Event.register 1, Event.join 1 "alpha" 0, Event.join 1 "alpha" 10]
    (fun w => members w "alpha") [1, 1] (by decide)
  exact ⟨⟨w1, reachable_of_run h1, p1⟩, ⟨w2, reachable_of_run h2, p2⟩⟩

theorem filterMap_map_sublist {α β κ : Type} (key : α → κ) (g : β → κ) (f : α → Option β) :
    ∀ (l : List α), (∀ p ∈ l, ∀ d, f p = some d → g d = key p) →
      List.Sublist ((l.filterMap f).map g) (l.map key) := by
  intro l
  induction l with
  | nil => intro _; simp
  | cons a l ih =>
    intro h
    have ih2 := ih (fun p hp => h p (List.mem_cons_of_mem _ hp))
    cases hf : f a with
    | none =>
      rw [List.filterMap_cons_none hf, List.map_cons]
      exact List.Sublist.cons _ ih2
    | some d =>
      rw [List.filterMap_cons_some hf, List.map_cons, List.map_cons,
        h a (List.mem_cons_self _ _) d hf]
      exact List.Sublist.cons₂ _ ih2

theorem filterMap_length_add_le {α β γ : Type} (f : α → Option β) (h : α → Option γ) :
    ∀ (l : List α), (∀ p ∈ l, f p = none ∨ h p = none) →
      (l.filterMap f).length + (l.filterMap h).length ≤ l.length := by
  intro l
  induction l with
  | nil => intro _; simp
  | cons a l ih =>
    intro hx
    have ih2 := ih (fun p hp => hx p (List.mem_cons_of_mem _ hp))
    have la := List.length_filterMap_le f l
    have lb := List.length_filterMap_le h l
    rcases hx a (List.mem_cons_self _ _) with h1 | h1
    · rw [List.filterMap_cons_none h1]
      cases h2 : h a with
      | none => rw [List.filterMap_cons_none h2]; simp only [List.length_cons]; omega
      | some d => rw [List.filterMap_cons_some h2]; simp only [List.length_cons]; omega
    · rw [List.filterMap_cons_none h1]
      cases h2 : f a with
      | none => rw [List.filterMap_cons_none h2]; simp only [List.length_cons]; omega
      | some d => rw [List.filterMap_cons_some h2]; simp only [List.length_cons]; omega

theorem keys_buildMap_length (es : List Entity) :
    (buildMap es).entries.length = (es.map Entity.ID).dedup.length := by
  have h1 : (buildMap es).keys.Nodup := (buildMap es).keys_nodup
  have h2 : ((es.map Entity.ID).dedup).Nodup := List.nodup_dedup _
  have hperm : List.Perm (buildMap es).keys ((es.map Entity.ID).dedup) := by
    rw [List.perm_ext_iff_of_nodup h1 h2]
    intro k
    rw [List.mem_dedup, ← AList.mem_keys, ← AList.lookup_isSome, lookup_buildMap,
      ← lastWithId_isSome, Option.isSome_iff_exists]
  have := hperm.length_eq
  rw [← this]
  simp [AList.keys, List.keys]

theorem changedOf_id {cm : EntityMap} {p : Sigma (fun _ : Int => Entity)} {d : EntityDelta}
    (h : changedOf cm p = some d) : d.id = p.1 := by
  unfold changedOf at h
  split at h
  · exact Option.noConfusion h
  · split at h
    · rw [← Option.some.inj h]; rfl
    · exact Option.noConfusion h

theorem removedOf_id {cm : EntityMap} {p : Sigma (fun _ : Int => Entity)} {k : Int}
    (h : removedOf cm p = some k) : k = p.1 := by
  unfold removedOf at h
  split at h
  · exact (Option.some.inj h).symm
  · exact Option.noConfusion h

theorem changedOf_or_removedOf (cm : EntityMap) (p : Sigma (fun _ : Int => Entity)) :
    changedOf cm p = none ∨ removedOf cm p = none := by
  unfold changedOf removedOf
  cases cm.lookup p.1 with
  | none => exact Or.inl rfl
  | some c => exact Or.inr rfl

theorem changed_ids_sublist (prev curr : List Entity) :
    List.Sublist ((ComputeDelta prev curr).1.map EntityDelta.id) (buildMap prev).keys := by
  rw [changed_eq]
  exact filterMap_map_sublist Sigma.fst EntityDelta.id _ _ (fun p _ d hd => changedOf_id hd)

theorem removed_sublist (prev curr : List Entity) :
    List.Sublist (ComputeDelta prev curr).2.1 (buildMap prev).keys := by
  rw [removed_eq]
  have := filterMap_map_sublist Sigma.fst (fun k : Int => k) (removedOf (buildMap curr))
    (buildMap prev).entries (fun p _ d hd => removedOf_id hd)
  simpa using this

theorem added_ids_sublist (prev curr : List Entity) :
    List.Sublist ((ComputeDelta prev curr).2.2.map Entity.ID) (buildMap curr).keys := by
  rw [added_eq]
  apply filterMap_map_sublist Sigma.fst Entity.ID
  intro p hp d hd
  unfold addedOf at hd
  split at hd
  · rw [← Option.some.inj hd]
    exact (lastWithId_some (mem_entries_buildMap.mp hp)).1
  · exact Option.noConfusion hd

/-- C20: the outputs of `ComputeDelta` partition the ids involved, for all lists, repeated ids
included: no id occurs twice within `changed`, within `removed` or within `added`; the three
id sets are pairwise disjoint; every id of `changed` or `removed` occurs in `prev` and every
id of `changed` or `added` occurs in `curr`; and the number of output entries is at most the
number of distinct ids of `prev` plus the number of distinct ids of `curr`. -/
theorem computeDelta_partition (prev curr : List Entity) :
    (((ComputeDelta prev curr).1.map EntityDelta.id).Nodup ∧
      (ComputeDelta prev curr).2.1.Nodup ∧
      ((ComputeDelta prev curr).2.2.map Entity.ID).Nodup) ∧
    ((∀ id ∈ (ComputeDelta prev curr).1.map EntityDelta.id,
        id ∉ (ComputeDelta prev curr).2.1) ∧
      (∀ id ∈ (ComputeDelta prev curr).1.map EntityDelta.id,
        id ∉ (ComputeDelta prev curr).2.2.map Entity.ID) ∧
      (∀ id ∈ (ComputeDelta prev curr).2.1,
        id ∉ (ComputeDelta prev curr).2.2.map Entity.ID)) ∧
    ((∀ id ∈ (ComputeDelta prev curr).1.map EntityDelta.id,
        id ∈ prev.map Entity.ID ∧ id ∈ curr.map Entity.ID) ∧
      (∀ id ∈ (ComputeDelta prev curr).2.1, id ∈ prev.map Entity.ID) ∧
      (∀ id ∈ (ComputeDelta prev curr).2.2.map Entity.ID, id ∈ curr.map Entity.ID)) ∧
    (ComputeDelta prev curr).1.length + (ComputeDelta prev curr).2.1.length
        + (ComputeDelta prev curr).2.2.length
      ≤ (prev.map Entity.ID).dedup.length + (curr.map Entity.ID).dedup.length := by
  have hch : ∀ id ∈ (ComputeDelta prev curr).1.map EntityDelta.id,
      id ∈ prev.map Entity.ID ∧ id ∈ curr.map Entity.ID := by
    intro id hid
    obtain ⟨d, hd, rfl⟩ := List.mem_map.mp hid
    obtain ⟨p, c, hp, hc, _⟩ := mem_changed.mp hd
    exact ⟨lastWithId_isSome.mp ⟨p, hp⟩, lastWithId_isSome.mp ⟨c, hc⟩⟩
  have had : ∀ id ∈ (ComputeDelta prev curr).2.2.map Entity.ID,
      id ∈ curr.map Entity.ID ∧ id ∉ prev.map Entity.ID := by
    intro id hid
    obtain ⟨e, he, rfl⟩ := List.mem_map.mp hid
    have h1 := mem_added.mp he
    exact ⟨lastWithId_isSome.mp ⟨e, h1.1⟩, h1.2⟩
  refine ⟨⟨?_, ?_, ?_⟩, ⟨?_, ?_, ?_⟩, ⟨hch, ?_, ?_⟩, ?_⟩
  · exact (buildMap prev).keys_nodup.sublist (changed_ids_sublist prev curr)
  · exact (buildMap prev).keys_nodup.sublist (removed_sublist prev curr)
  · exact (buildMap curr).keys_nodup.sublist (added_ids_sublist prev curr)
  · intro id hid hr
    exact (mem_removed.mp hr).2 (hch id hid).2
  · intro id hid ha
    exact (had id ha).2 (hch id hid).1
  · intro id hr ha
    exact (had id ha).2 (mem_removed.mp hr).1
  · intro id hr
    exact (mem_removed.mp hr).1
  · intro id ha
    exact (had id ha).1
  · have h1 : (ComputeDelta prev curr).1.length + (ComputeDelta prev curr).2.1.length
        ≤ (buildMap prev).entries.length := by
      rw [changed_eq, removed_eq]
      exact filterMap_length_add_le _ _ _ (fun p _ => changedOf_or_removedOf _ p)
    have h2 : (ComputeDelta prev curr).2.2.length ≤ (buildMap curr).entries.length := by
      rw [added_eq]
      exact List.length_filterMap_le _ _
    rw [keys_buildMap_length] at h1 h2
    omega

theorem changedRecord_eq_none_iff (id : Int) (p c : Entity) :
    changedRecord id p c = none ↔ p.goEqual c := by
  unfold changedRecord Entity.goEqual positionDiffers velocityDiffers healthDiffers Float64.ne
  by_cases h1 : Float64.eq p.X c.X = true <;> by_cases h2 : Float64.eq p.Y c.Y = true <;>
    by_cases h3 : Float64.eq p.Z c.Z = true <;> by_cases h4 : Float64.eq p.VX c.VX = true <;>
    by_cases h5 : Float64.eq p.VY c.VY = true <;> by_cases h6 : Float64.eq p.VZ c.VZ = true <;>
    by_cases h7 : p.HP = c.HP <;> simp [h1, h2, h3, h4, h5, h6, h7]

theorem computeDelta_eq_nil_iff (prev curr : List Entity) :
    ComputeDelta prev curr = ([], [], []) ↔
      (∀ id, id ∈ prev.map Entity.ID ↔ id ∈ curr.map Entity.ID) ∧
      ∀ id p c, lastWithId id prev = some p → lastWithId id curr = some c → p.goEqual c := by
  constructor
  · intro h
    have h1 : (ComputeDelta prev curr).1 = [] := by rw [h]
    have h2 : (ComputeDelta prev curr).2.1 = [] := by rw [h]
    have h3 : (ComputeDelta prev curr).2.2 = [] := by rw [h]
    have hsub1 : ∀ id, id ∈ prev.map Entity.ID → id ∈ curr.map Entity.ID := by
      intro id hp
      by_contra hc
      have := mem_removed.mpr ⟨hp, hc⟩
      rw [h2] at this
      exact List.not_mem_nil _ this
    have hsub2 : ∀ id, id ∈ curr.map Entity.ID → id ∈ prev.map Entity.ID := by
      intro id hc
      by_contra hp
      obtain ⟨e, he⟩ := lastWithId_isSome.mpr hc
      have hid := (lastWithId_some he).1
      have : e ∈ (ComputeDelta prev curr).2.2 :=
        mem_added.mpr ⟨by rw [hid]; exact he, by rw [hid]; exact hp⟩
      rw [h3] at this
      exact List.not_mem_nil _ this
    refine ⟨fun id => ⟨hsub1 id, hsub2 id⟩, ?_⟩
    intro id p c hp hc
    rw [← changedRecord_eq_none_iff id]
    cases hr : changedRecord id p c with
    | none => rfl
    | some d =>
      have hid : d.id = id := by rw [changedRecord_id hr]; rfl
      have : d ∈ (ComputeDelta prev curr).1 :=
        mem_changed.mpr ⟨p, c, by rw [hid]; exact hp, by rw [hid]; exact hc,
          by rw [hid]; exact hr⟩
      rw [h1] at this
      exact absurd this (List.not_mem_nil _)
  · rintro ⟨hids, hfields⟩
    apply eq_nil_of_components
    · rw [List.eq_nil_iff_forall_not_mem]
      intro d hd
      obtain ⟨p, c, hp, hc, hrec⟩ := mem_changed.mp hd
      rw [(changedRecord_eq_none_iff d.id p c).mpr (hfields d.id p c hp hc)] at hrec
      exact Option.noConfusion hrec
    · rw [List.eq_nil_iff_forall_not_mem]
      intro id hid
      have := mem_removed.mp hid
      exact this.2 ((hids id).mp this.1)
    · rw [List.eq_nil_iff_forall_not_mem]
      intro e he
      have h1 := mem_added.mp he
      exact h1.2 ((hids e.ID).mpr (lastWithId_isSome.mp ⟨e, h1.1⟩))

theorem Client.fedWith_nil (cl : Client) : cl.fedWith [] = cl := by
  unfold Client.fedWith
  simp

theorem Client.fedWith_fedWith (cl : Client) (a b : List Message) :
    (cl.fedWith a).fedWith b = cl.fedWith (a ++ b) := by
  unfold Client.fedWith
  simp

theorem fanOut_spec (msg : Message) :
    ∀ (cs : List ClientRef) (heap heap2 : AList (fun _ : ClientRef => Client)),
      fanOut msg cs heap = .ok heap2 →
      ∀ c, (heap.lookup c = none → heap2.lookup c = none) ∧
        ∀ cl, heap.lookup c = some cl →
          ∃ k, heap2.lookup c = some (cl.fedWith (List.replicate k msg)) ∧
            (k ≠ 0 → c ∈ cs) ∧
            (c ∈ cs → k ≠ 0 ∨ sendCapacity ≤ cl.send.buf.length) ∧
            (sendCapacity ≤ cl.send.buf.length → k = 0) := by
  intro cs
  induction cs with
  | nil =>
    intro heap heap2 h c
    cases h
    refine ⟨fun hn => hn, fun cl hcl => ⟨0, ?_, ?_, ?_, ?_⟩⟩
    · simp [Client.fedWith_nil, hcl]
    · intro hk; exact absurd rfl hk
    · intro hc; simp at hc
    · intro _; rfl
  | cons c0 cs ih =>
    intro heap heap2 h c
    unfold fanOut at h
    split at h
    · exact Except.noConfusion h
    · rename_i cl0 hl0
      split at h
      · exact Except.noConfusion h
      · rename_i ch hch
        -- what the non-blocking send did to the queue of `c0`
        have hfed : ∃ k0, ({ cl0 with send := ch } : Client)
              = cl0.fedWith (List.replicate k0 msg) ∧
            (k0 ≠ 0 ∨ sendCapacity ≤ cl0.send.buf.length) ∧
            (sendCapacity ≤ cl0.send.buf.length → k0 = 0) := by
          unfold Chan.trySend at hch
          split at hch
          · exact Except.noConfusion hch
          · split at hch
            · rename_i hroom
              cases hch
              refine ⟨1, rfl, Or.inl (by decide), ?_⟩
              intro hfull
              omega
            · rename_i hroom
              cases hch
              refine ⟨0, ?_, Or.inr (by omega), fun _ => rfl⟩
              simp [Client.fedWith_nil]
        obtain ⟨k0, hk0, hdel0, hfull0⟩ := hfed
        rw [hk0] at h
        have hi := ih _ _ h c
        by_cases hc : c = c0
        · subst hc
          refine ⟨fun hn => ?_, fun cl hcl => ?_⟩
          · rw [hl0] at hn; exact Option.noConfusion hn
          · rw [hl0] at hcl
            cases Option.some.inj hcl
            obtain ⟨k1, hk1, _, _, hfull1⟩ := hi.2 _ (AList.lookup_insert _)
            refine ⟨k0 + k1, ?_, fun _ => List.mem_cons_self _ _, ?_, ?_⟩
            · rw [hk1, Client.fedWith_fedWith, List.replicate_add]
            · intro _
              rcases hdel0 with h0 | h0
              · left; omega
              · right; exact h0
            · intro hfull
              have e0 := hfull0 hfull
              subst e0
              have : sendCapacity ≤ (cl0.fedWith (List.replicate 0 msg)).send.buf.length := by
                simpa [Client.fedWith] using hfull
              rw [hfull1 this]
        · have hlk : (AList.insert c0 (cl0.fedWith (List.replicate k0 msg)) heap).lookup c
              = heap.lookup c := AList.lookup_insert_ne hc
          refine ⟨fun hn => hi.1 (by rw [hlk]; exact hn), fun cl hcl => ?_⟩
          obtain ⟨k1, hk1, hmem1, hdel1, hfull1⟩ := hi.2 cl (by rw [hlk]; exact hcl)
          refine ⟨k1, hk1, fun hk => List.mem_cons_of_mem _ (hmem1 hk), ?_, hfull1⟩
          intro hm
          rcases List.mem_cons.mp hm with h0 | h0
          · exact absurd h0 hc
          · exact hdel1 h0

theorem broadcastLobby_hub {now : Nat} {L : String} {cl : List ClientRef} {w w1 : World}
    (h : broadcastLobby now L cl w = .ok w1) :
    w1.hub.clients = w.hub.clients ∧ w1.hub.nextID = w.hub.nextID ∧
      (∀ L2, L2 ≠ L → w1.hub.lobbySeq.lookup L2 = w.hub.lobbySeq.lookup L2) ∧
      (cl ≠ [] → w1.hub.lobbySeq.lookup L = some (toUint32 (seqOf w L + 1))) ∧
      (cl = [] → w1 = w) := by
  unfold broadcastLobby at h
  split at h
  · rename_i h0
    cases h
    exact ⟨rfl, rfl, fun _ _ => rfl, fun hne => absurd (List.length_eq_zero.mp h0) hne,
      fun _ => rfl⟩
  · rename_i h0
    have hne : cl ≠ [] := fun he => h0 (by rw [he]; rfl)
    simp only at h
    split at h
    · split at h
      · exact Except.noConfusion h
      · cases h
        exact ⟨rfl, rfl, fun L2 hL => AList.lookup_insert_ne hL,
          fun _ => AList.lookup_insert _, fun he => absurd he hne⟩
    · split at h
      · cases h
        exact ⟨rfl, rfl, fun L2 hL => AList.lookup_insert_ne hL,
          fun _ => AList.lookup_insert _, fun he => absurd he hne⟩
      · split at h
        · exact Except.noConfusion h
        · cases h
          exact ⟨rfl, rfl, fun L2 hL => AList.lookup_insert_ne hL,
            fun _ => AList.lookup_insert _, fun he => absurd he hne⟩

theorem heap_spec_of_fanOut {msg : Message} {cs : List ClientRef}
    {heap heap2 : AList (fun _ : ClientRef => Client)} (hf : fanOut msg cs heap = .ok heap2)
    (c : ClientRef) :
    (heap.lookup c = none → heap2.lookup c = none) ∧
      ∀ cl0, heap.lookup c = some cl0 →
        ∃ sent, heap2.lookup c = some (cl0.fedWith sent) ∧
          (∀ m ∈ sent, c ∈ cs ∧ some msg = some m) ∧
          (∀ m, some msg = some m → c ∈ cs → m ∈ sent ∨ sendCapacity ≤ cl0.send.buf.length) ∧
          (sendCapacity ≤ cl0.send.buf.length → sent = []) := by
  have hs := fanOut_spec msg cs heap heap2 hf c
  refine ⟨hs.1, fun cl0 hcl0 => ?_⟩
  obtain ⟨k, hk, hmem, hdel, hfull⟩ := hs.2 cl0 hcl0
  refine ⟨List.replicate k msg, hk, ?_, ?_, ?_⟩
  · intro m hm
    have hk0 : k ≠ 0 := by
      intro h0; subst h0; simp at hm
    exact ⟨hmem hk0, by rw [(List.mem_replicate.mp hm).2]⟩
  · intro m hm hc
    cases Option.some.inj hm
    rcases hdel hc with h1 | h1
    · left
      exact List.mem_replicate.mpr ⟨h1, rfl⟩
    · right; exact h1
  · intro hf2
    rw [hfull hf2]
    rfl

theorem broadcastLobby_heap {now : Nat} {L : String} {cl : List ClientRef} {w w1 : World}
    (h : broadcastLobby now L cl w = .ok w1) (hcl : cl ≠ []) (c : ClientRef) :
    (w.heap.lookup c = none → w1.heap.lookup c = none) ∧
      ∀ cl0, w.heap.lookup c = some cl0 →
        ∃ sent, w1.heap.lookup c = some (cl0.fedWith sent) ∧
          (∀ m ∈ sent, c ∈ cl ∧ lobbyMessage now L w = some m) ∧
          (∀ m, lobbyMessage now L w = some m → c ∈ cl →
            m ∈ sent ∨ sendCapacity ≤ cl0.send.buf.length) ∧
          (sendCapacity ≤ cl0.send.buf.length → sent = []) := by
  unfold broadcastLobby at h
  have hlen : ¬ cl.length = 0 := fun h0 => hcl (List.length_eq_zero.mp h0)
  rw [if_neg hlen] at h
  simp only at h
  unfold lobbyMessage
  split at h
  · rename_i hls
    split at h
    · exact Except.noConfusion h
    · rename_i heap2 hf
      cases h
      simp only [hls]
      exact heap_spec_of_fanOut hf c
  · rename_i prev hls
    split at h
    · rename_i hz
      cases h
      simp only [hls]
      rw [if_pos ((delta_lengths_zero_iff _).mp hz)]
      refine ⟨fun hn => hn, fun cl0 hcl0 => ⟨[], ?_, ?_, ?_, fun _ => rfl⟩⟩
      · rw [Client.fedWith_nil]; exact hcl0
      · intro m hm; simp at hm
      · intro m hm; exact Option.noConfusion hm
    · rename_i hz
      split at h
      · exact Except.noConfusion h
      · rename_i heap2 hf
        cases h
        simp only [hls]
        rw [if_neg (fun he => hz ((delta_lengths_zero_iff _).mpr he))]
        exact heap_spec_of_fanOut hf c

theorem lobbyMessage_congr {now : Nat} {L : String} {w w1 : World}
    (h1 : w1.hub.lobbySeq.lookup L = w.hub.lobbySeq.lookup L)
    (h2 : w1.hub.lastState.lookup L = w.hub.lastState.lookup L)
    (h3 : w1.hub.gameState = w.hub.gameState) :
    lobbyMessage now L w1 = lobbyMessage now L w := by
  unfold lobbyMessage seqOf
  rw [h1, h2, h3]

theorem broadcastLoop_hub {now : Nat} :
    ∀ (l : List (Sigma (fun _ : String => List ClientRef))) {w w2 : World},
      (l.map Sigma.fst).Nodup → broadcastLoop now l w = .ok w2 →
      w2.hub.clients = w.hub.clients ∧ w2.hub.nextID = w.hub.nextID ∧
        (∀ L, (∀ cl, Sigma.mk L cl ∈ l → cl = []) →
          w2.hub.lobbySeq.lookup L = w.hub.lobbySeq.lookup L) ∧
        (∀ L cl, Sigma.mk L cl ∈ l → cl ≠ [] →
          w2.hub.lobbySeq.lookup L = some (toUint32 (seqOf w L + 1))) := by
  intro l
  induction l with
  | nil =>
    intro w w2 _ h
    cases h
    exact ⟨rfl, rfl, fun _ _ => rfl, fun L cl hm => by simp at hm⟩
  | cons e rest ih =>
    intro w w2 hnd h
    simp only [List.map_cons, List.nodup_cons] at hnd
    unfold broadcastLoop at h
    split at h
    · exact Except.noConfusion h
    · rename_i w1 h1
      obtain ⟨c1, n1, o1, s1, e1⟩ := broadcastLobby_hub h1
      obtain ⟨c2, n2, o2, s2⟩ := ih hnd.2 h
      refine ⟨c2.trans c1, n2.trans n1, ?_, ?_⟩
      · intro L hL
        rw [o2 L (fun cl hm => hL cl (List.mem_cons_of_mem _ hm))]
        by_cases hLe : L = e.1
        · have he : e.2 = [] := hL e.2 (by rw [hLe]; exact List.mem_cons_self _ _)
          rw [e1 he]
        · exact o1 L hLe
      · intro L cl hm hcl
        rcases List.mem_cons.mp hm with heq | hrest
        · subst heq
          rw [o2 L (fun cl2 hm2 => absurd (List.mem_map.mpr ⟨⟨L, cl2⟩, hm2, rfl⟩) hnd.1)]
          exact s1 hcl
        · have hne : L ≠ e.1 := by
            intro hh
            apply hnd.1
            rw [← hh]
            exact List.mem_map.mpr ⟨⟨L, cl⟩, hrest, rfl⟩
          rw [s2 L cl hrest hcl]
          unfold seqOf
          rw [o1 L hne]

theorem broadcastLoop_heap {now : Nat} :
    ∀ (l : List (Sigma (fun _ : String => List ClientRef))) {w w2 : World},
      (l.map Sigma.fst).Nodup → broadcastLoop now l w = .ok w2 →
      ∀ c, (w.heap.lookup c = none → w2.heap.lookup c = none) ∧
        ∀ cl0, w.heap.lookup c = some cl0 →
          ∃ sent, w2.heap.lookup c = some (cl0.fedWith sent) ∧
            (∀ m ∈ sent, ∃ L cl, Sigma.mk L cl ∈ l ∧ c ∈ cl ∧
              lobbyMessage now L w = some m) ∧
            (∀ L cl m, Sigma.mk L cl ∈ l → c ∈ cl → lobbyMessage now L w = some m →
              m ∈ sent ∨ sendCapacity ≤ (cl0.send.buf ++ sent).length) ∧
            (sendCapacity ≤ cl0.send.buf.length → sent = []) := by
  intro l
  induction l with
  | nil =>
    intro w w2 _ h c
    cases h
    refine ⟨fun hn => hn, fun cl0 hcl0 => ⟨[], ?_, ?_, ?_, fun _ => rfl⟩⟩
    · rw [Client.fedWith_nil]; exact hcl0
    · intro m hm; simp at hm
    · intro L cl m hm; simp at hm
  | cons e rest ih =>
    intro w w2 hnd h c
    simp only [List.map_cons, List.nodup_cons] at hnd
    unfold broadcastLoop at h
    split at h
    · exact Except.noConfusion h
    · rename_i w1 h1
      obtain ⟨g1, _, f1⟩ := broadcastLobby_frame h1
      obtain ⟨_, _, o1, _, e1⟩ := broadcastLobby_hub h1
      have hmsg : ∀ L cl, Sigma.mk L cl ∈ rest →
          lobbyMessage now L w1 = lobbyMessage now L w := by
        intro L cl hrest
        have hne : L ≠ e.1 := by
          intro hh
          apply hnd.1
          rw [← hh]
          exact List.mem_map.mpr ⟨⟨L, cl⟩, hrest, rfl⟩
        exact lobbyMessage_congr (o1 L hne) (f1 L hne) g1
      have hi := ih hnd.2 h c
      by_cases hemp : e.2 = []
      · have hw : w1 = w := e1 hemp
        subst hw
        refine ⟨hi.1, fun cl0 hcl0 => ?_⟩
        obtain ⟨sent, hs, hfrom, hdel, hfull⟩ := hi.2 cl0 hcl0
        refine ⟨sent, hs, ?_, ?_, hfull⟩
        · intro m hm
          obtain ⟨L, cl, hLm, hc, hmsg2⟩ := hfrom m hm
          exact ⟨L, cl, List.mem_cons_of_mem _ hLm, hc, hmsg2⟩
        · intro L cl m hLm hc hmsg2
          rcases List.mem_cons.mp hLm with heq | hrest
          · rw [← heq] at hemp
            simp only at hemp
            rw [hemp] at hc
            simp at hc
          · exact hdel L cl m hrest hc hmsg2
      · have hb := broadcastLobby_heap h1 hemp c
        refine ⟨fun hn => hi.1 (hb.1 hn), fun cl0 hcl0 => ?_⟩
        obtain ⟨s1, hs1, hfrom1, hdel1, hfull1⟩ := hb.2 cl0 hcl0
        obtain ⟨s2, hs2, hfrom2, hdel2, hfull2⟩ := hi.2 _ hs1
        refine ⟨s1 ++ s2, ?_, ?_, ?_, ?_⟩
        · rw [hs2, Client.fedWith_fedWith]
        · intro m hm
          rcases List.mem_append.mp hm with hm1 | hm2
          · exact ⟨e.1, e.2, List.mem_cons_self _ _, (hfrom1 m hm1).1, (hfrom1 m hm1).2⟩
          · obtain ⟨L, cl, hLm, hc, hmsg2⟩ := hfrom2 m hm2
            exact ⟨L, cl, List.mem_cons_of_mem _ hLm, hc, by rw [← hmsg L cl hLm]; exact hmsg2⟩
        · intro L cl m hLm hc hmsg2
          rcases List.mem_cons.mp hLm with heq | hrest
          · rw [← heq] at hdel1
            simp only at hdel1
            rcases hdel1 m hmsg2 hc with hd | hd
            · exact Or.inl (List.mem_append_left _ hd)
            · right
              simp only [List.length_append]
              omega
          · rcases hdel2 L cl m hrest hc (by rw [hmsg L cl hrest]; exact hmsg2) with hd | hd
            · exact Or.inl (List.mem_append_right _ hd)
            · right
              simpa [Client.fedWith, List.append_assoc] using hd
        · intro hf
          have e1s := hfull1 hf
          subst e1s
          have : sendCapacity ≤ (cl0.fedWith []).send.buf.length := by
            rw [Client.fedWith_nil]; exact hf
          rw [hfull2 this]
          rfl

theorem mem_members_iff {w : World} {L : String} {c : ClientRef} :
    c ∈ members w L ↔ ∃ cl, Sigma.mk L cl ∈ w.hub.lobbies.entries ∧ c ∈ cl := by
  unfold members
  constructor
  · intro h
    cases hl : w.hub.lobbies.lookup L with
    | none => rw [hl] at h; simp at h
    | some cl =>
      rw [hl] at h
      exact ⟨cl, (AList.mem_lookup_iff (s := w.hub.lobbies)).mp hl, h⟩
  · rintro ⟨cl, hm, hc⟩
    rw [(AList.mem_lookup_iff (s := w.hub.lobbies)).mpr hm]
    exact hc

theorem tick_heap {now : Nat} {w w2 : World} (h : broadcastGameState now w = .ok w2)
    (c : ClientRef) :
    (w.heap.lookup c = none → w2.heap.lookup c = none) ∧
      ∀ cl0, w.heap.lookup c = some cl0 →
        ∃ sent, w2.heap.lookup c = some (cl0.fedWith sent) ∧
          (∀ m ∈ sent, ∃ L, c ∈ members w L ∧ lobbyMessage now L w = some m) ∧
          (∀ L m, c ∈ members w L → lobbyMessage now L w = some m →
            m ∈ sent ∨ sendCapacity ≤ (cl0.send.buf ++ sent).length) ∧
          (sendCapacity ≤ cl0.send.buf.length → sent = []) := by
  unfold broadcastGameState at h
  have hs := broadcastLoop_heap _ w.hub.lobbies.keys_nodup h c
  refine ⟨hs.1, fun cl0 hcl0 => ?_⟩
  obtain ⟨sent, h1, hfrom, hdel, hfull⟩ := hs.2 cl0 hcl0
  refine ⟨sent, h1, ?_, ?_, hfull⟩
  · intro m hm
    obtain ⟨L, cl, hLm, hc, hmsg⟩ := hfrom m hm
    exact ⟨L, mem_members_iff.mpr ⟨cl, hLm, hc⟩, hmsg⟩
  · intro L m hc hmsg
    obtain ⟨cl, hLm, hc2⟩ := mem_members_iff.mp hc
    exact hdel L cl m hLm hc2 hmsg

theorem tick_hub {now : Nat} {w w2 : World} (h : broadcastGameState now w = .ok w2) :
    w2.hub.clients = w.hub.clients ∧ w2.hub.nextID = w.hub.nextID ∧
      w2.hub.lobbies = w.hub.lobbies ∧ w2.hub.gameState = w.hub.gameState ∧
      (∀ L, members w L = [] → w2.hub.lobbySeq.lookup L = w.hub.lobbySeq.lookup L) ∧
      (∀ L, members w L ≠ [] → w2.hub.lobbySeq.lookup L = some (toUint32 (seqOf w L + 1))) := by
  unfold broadcastGameState at h
  obtain ⟨hc, hn, ho, hs⟩ := broadcastLoop_hub _ w.hub.lobbies.keys_nodup h
  obtain ⟨hg, hl, _⟩ := broadcastLoop_frame _ h
  refine ⟨hc, hn, hl, hg, ?_, ?_⟩
  · intro L hm
    apply ho
    intro cl hcl
    unfold members at hm
    rw [(AList.mem_lookup_iff (s := w.hub.lobbies)).mpr hcl] at hm
    exact hm
  · intro L hm
    unfold members at hm
    cases hl2 : w.hub.lobbies.lookup L with
    | none => rw [hl2] at hm; exact absurd rfl hm
    | some cl =>
      rw [hl2] at hm
      exact hs L cl ((AList.mem_lookup_iff (s := w.hub.lobbies)).mp hl2) hm

theorem fanOut_mem_isSome (msg : Message) :
    ∀ (cs : List ClientRef) (heap heap2 : AList (fun _ : ClientRef => Client)),
      fanOut msg cs heap = .ok heap2 → ∀ c ∈ cs, heap.lookup c ≠ none := by
  intro cs
  induction cs with
  | nil => intro heap heap2 _ c hc; simp at hc
  | cons c0 cs ih =>
    intro heap heap2 h c hc
    unfold fanOut at h
    split at h
    · exact Except.noConfusion h
    · rename_i cl0 hl0
      split at h
      · exact Except.noConfusion h
      · rcases List.mem_cons.mp hc with h0 | h0
        · rw [h0, hl0]; exact fun hn => Option.noConfusion hn
        · have := ih _ _ h c h0
          by_cases hcc : c = c0
          · rw [hcc, hl0]; exact fun hn => Option.noConfusion hn
          · rw [AList.lookup_insert_ne hcc] at this
            exact this

theorem broadcastLobby_mem_isSome {now : Nat} {L : String} {cl : List ClientRef}
    {w w1 : World} (h : broadcastLobby now L cl w = .ok w1) {m : Message}
    (hm : lobbyMessage now L w = some m) : ∀ c ∈ cl, w.heap.lookup c ≠ none := by
  intro c hc
  have hcl : cl ≠ [] := fun he => by rw [he] at hc; simp at hc
  unfold broadcastLobby at h
  have hlen : ¬ cl.length = 0 := fun h0 => hcl (List.length_eq_zero.mp h0)
  rw [if_neg hlen] at h
  simp only at h
  unfold lobbyMessage at hm
  split at h
  · split at h
    · exact Except.noConfusion h
    · rename_i heap2 hf
      exact fanOut_mem_isSome _ _ _ _ hf c hc
  · rename_i prev hls
    split at h
    · rename_i hz
      rw [hls] at hm
      simp only at hm
      rw [if_pos ((delta_lengths_zero_iff _).mp hz)] at hm
      exact Option.noConfusion hm
    · split at h
      · exact Except.noConfusion h
      · rename_i heap2 hf
        exact fanOut_mem_isSome _ _ _ _ hf c hc

theorem broadcastLoop_mem_isSome {now : Nat} :
    ∀ (l : List (Sigma (fun _ : String => List ClientRef))) {w w2 : World},
      (l.map Sigma.fst).Nodup → broadcastLoop now l w = .ok w2 →
      ∀ L cl m c, Sigma.mk L cl ∈ l → c ∈ cl → lobbyMessage now L w = some m →
        w.heap.lookup c ≠ none := by
  intro l
  induction l with
  | nil => intro w w2 _ _ L cl m c hm; simp at hm
  | cons e rest ih =>
    intro w w2 hnd h L cl m c hLm hc hmsg
    simp only [List.map_cons, List.nodup_cons] at hnd
    unfold broadcastLoop at h
    split at h
    · exact Except.noConfusion h
    · rename_i w1 h1
      rcases List.mem_cons.mp hLm with heq | hrest
      · rw [← heq] at h1
        exact broadcastLobby_mem_isSome h1 hmsg c hc
      · obtain ⟨g1, _, f1⟩ := broadcastLobby_frame h1
        obtain ⟨_, _, o1, _, e1⟩ := broadcastLobby_hub h1
        have hne : L ≠ e.1 := by
          intro hh
          apply hnd.1
          rw [← hh]
          exact List.mem_map.mpr ⟨⟨L, cl⟩, hrest, rfl⟩
        have hmsg1 : lobbyMessage now L w1 = some m := by
          rw [lobbyMessage_congr (o1 L hne) (f1 L hne) g1]; exact hmsg
        have h2 := ih hnd.2 h L cl m c hrest hc hmsg1
        intro hn
        by_cases hemp : e.2 = []
        · rw [e1 hemp] at h2; exact h2 hn
        · exact h2 ((broadcastLobby_heap h1 hemp c).1 hn)

theorem tick_queue {now : Nat} {w w2 : World} (h : broadcastGameState now w = .ok w2)
    (c : ClientRef) :
    ∃ sent, queueOf w2 c = queueOf w c ++ sent ∧
      (∀ m ∈ sent, ∃ L, c ∈ members w L ∧ lobbyMessage now L w = some m) ∧
      (∀ L m, c ∈ members w L → lobbyMessage now L w = some m →
        m ∈ sent ∨ sendCapacity ≤ (queueOf w2 c).length) ∧
      (sendCapacity ≤ (queueOf w c).length → sent = []) := by
  have ht := tick_heap h c
  unfold queueOf
  cases hl : w.heap.lookup c with
  | none =>
    rw [ht.1 hl]
    refine ⟨[], rfl, ?_, ?_, fun _ => rfl⟩
    · intro m hm; simp at hm
    · intro L m hc
      intro hmsg
      exfalso
      obtain ⟨cl, hLm, hc2⟩ := mem_members_iff.mp hc
      unfold broadcastGameState at h
      exact broadcastLoop_mem_isSome _ w.hub.lobbies.keys_nodup h L cl m c hLm hc2 hmsg hl
  | some cl0 =>
    obtain ⟨sent, hs, hfrom, hdel, hfull⟩ := ht.2 cl0 hl
    rw [hs]
    exact ⟨sent, rfl, hfrom, hdel, hfull⟩

theorem toUint32_lt (n : Nat) : toUint32 n < 4294967296 := by
  unfold toUint32
  omega

theorem toUint32_pred (n : Nat) (h : n < 4294967296) :
    toUint32 (toUint32 (n + 1) + 4294967295) = n := by
  unfold toUint32
  omega

theorem seqOf_eq_of_lookup {w w1 : World} {L : String}
    (h : w1.hub.lobbySeq.lookup L = w.hub.lobbySeq.lookup L) : seqOf w1 L = seqOf w L := by
  unfold seqOf
  rw [h]

theorem removeFromLobby_frame {c : ClientRef} {w w1 : World}
    (h : removeFromLobby c w = .ok w1) :
    w1.heap = w.heap ∧ w1.hub.clients = w.hub.clients ∧ w1.hub.nextID = w.hub.nextID ∧
      w1.hub.lobbySeq = w.hub.lobbySeq ∧ w1.hub.lastState = w.hub.lastState := by
  unfold removeFromLobby at h
  split at h
  · exact Except.noConfusion h
  · split at h
    · cases h; exact ⟨rfl, rfl, rfl, rfl, rfl⟩
    · simp only at h
      split at h <;> split at h <;> (cases h; exact ⟨rfl, rfl, rfl, rfl, rfl⟩)

theorem unregister_frame {c : ClientRef} {w w1 : World} (h : unregister c w = .ok w1) :
    w1.hub.nextID = w.hub.nextID ∧ w1.hub.lobbySeq = w.hub.lobbySeq ∧
      w1.hub.lastState = w.hub.lastState := by
  unfold unregister at h
  split at h
  · cases h; exact ⟨rfl, rfl, rfl⟩
  · split at h
    · exact Except.noConfusion h
    · split at h
      · exact Except.noConfusion h
      · obtain ⟨_, _, h3, h4, h5⟩ := removeFromLobby_frame h
        exact ⟨h3, h4, h5⟩

theorem addToLobby_frame {c : ClientRef} {lobby : String} {now : Nat} {w w1 : World}
    (h : addToLobby c lobby now w = .ok w1) :
    w1.hub.clients = w.hub.clients ∧ w1.hub.nextID = w.hub.nextID ∧
      w1.hub.lobbySeq = w.hub.lobbySeq ∧ w1.hub.lastState = w.hub.lastState := by
  unfold addToLobby at h
  split at h
  · exact Except.noConfusion h
  · simp only at h
    split at h
    · exact Except.noConfusion h
    · cases h; exact ⟨rfl, rfl, rfl, rfl⟩

/-- C11 fails on the code: a tick of a lobby with a member whose counter is `4294967295`, the
largest `uint32`, takes the counter to 0: it neither goes up by 1 nor stays increasing, as
the comment of line 100 (`monotonically increasing seq per lobby`) has it. -/
theorem seq_wraps :
    ∃ w, run wrapWorld [Event.tick 66] = Outcome.state w ∧
      (members wrapWorld "alpha", seqOf wrapWorld "alpha", seqOf w "alpha")
        = ([1], 4294967295, 0) :=
  exists_state_of_finalState _ _ _ _ (by decide)

theorem marshal_eq_of_ne_nilFrame {m m2 : Message} (h : marshal m = m2)
    (hne : m2 ≠ Message.nilFrame) : m = m2 := by
  unfold marshal at h
  split at h
  · exact h
  · exact absurd h.symm hne

theorem marshal_of_encodable {m : Message} (h : m.encodable = true) : marshal m = m := by
  unfold marshal
  rw [if_pos h]

theorem marshal_of_not_encodable {m : Message} (h : m.encodable = false) :
    marshal m = Message.nilFrame := by
  unfold marshal
  rw [h]
  rfl

/-- C12: every STATE_DELTA message a Tick queues for a client belongs to a lobby `L` of that
client that had a previous snapshot; its `seq` is the counter of `L` after the increment of
this tick, its `baseSeq` is `seq - 1` as a `uint32` (so `baseSeq + 1 = seq`, or `4294967295`
when `seq` is 0), which is the counter of `L` before the tick, and its three sets are
`ComputeDelta` of the previous snapshot and the current entities of `L` as they were before
the tick. -/
theorem tick_delta_fields (now : Nat) (w w2 : World)
    (h : broadcastGameState now w = .ok w2) (c : ClientRef) :
    ∃ sent, queueOf w2 c = queueOf w c ++ sent ∧
      ∀ ts seq baseSeq ch rm ad, Message.stateDelta ts seq baseSeq ch rm ad ∈ sent →
        ∃ L prev, c ∈ members w L ∧ w.hub.lastState.lookup L = some prev ∧
          seq = seqOf w2 L ∧ seq = toUint32 (seqOf w L + 1) ∧
          baseSeq = toUint32 (seq + 4294967295) ∧
          (0 < seq → baseSeq + 1 = seq) ∧ (seq = 0 → baseSeq = 4294967295) ∧
          (seqOf w L < 4294967296 → baseSeq = seqOf w L) ∧
          (ch, rm, ad) = ComputeDelta prev ((w.hub.gameState.lookup L).getD []) := by
  obtain ⟨sent, hq, hfrom, _, _⟩ := tick_queue h c
  refine ⟨sent, hq, ?_⟩
  intro ts seq baseSeq ch rm ad hm
  obtain ⟨L, hc, hmsg⟩ := hfrom _ hm
  have hne : members w L ≠ [] := fun he => by rw [he] at hc; simp at hc
  have hseq2 : seqOf w2 L = toUint32 (seqOf w L + 1) := by
    show (w2.hub.lobbySeq.lookup L).getD 0 = _
    rw [(tick_hub h).2.2.2.2.2 L hne]
    rfl
  unfold lobbyMessage at hmsg
  split at hmsg
  · exact Message.noConfusion
      (marshal_eq_of_ne_nilFrame (Option.some.inj hmsg) (fun he => Message.noConfusion he))
  · rename_i prev hls
    split at hmsg
    · exact Option.noConfusion hmsg
    · have hinj := marshal_eq_of_ne_nilFrame (Option.some.inj hmsg)
        (fun he => Message.noConfusion he)
      injection hinj with h1 h2 h3 h4 h5 h6
      have hlt := toUint32_lt (seqOf w L + 1)
      refine ⟨L, prev, hc, hls, by rw [hseq2, h2], h2.symm, ?_, ?_, ?_, ?_, ?_⟩
      · rw [← h3, ← h2]
      · intro hpos
        rw [← h3, ← h2]
        rw [← h2] at hpos
        unfold toUint32 at hpos hlt ⊢
        omega
      · intro hz
        rw [← h3]
        rw [← h2] at hz
        rw [hz]
        rfl
      · intro hlt2
        rw [← h3]
        exact toUint32_pred _ hlt2
      · rw [← h4, ← h5, ← h6]

/-- C12, at `deltaWorld`: the tick succeeds and what the member holds afterwards is what it
held before followed by what the tick queued. -/
theorem tick_delta_fields_witness :
    broadcastGameState 66 deltaWorld = .ok deltaWorldTicked ∧
      ∃ sent, queueOf deltaWorldTicked 1 = queueOf deltaWorld 1 ++ sent ∧
        Message.stateDelta 66 2 1 [⟨100, none, none, some 40⟩] [] [] ∈ sent :=
  ⟨rfl,
    match tick_delta_fields 66 deltaWorld deltaWorldTicked rfl 1 with
    | ⟨sent, hq, _⟩ => ⟨sent, hq, by
        have h1 : queueOf deltaWorldTicked 1
            = [Message.stateDelta 66 2 1 [⟨100, none, none, some 40⟩] [] []] := by decide
        have h2 : queueOf deltaWorld 1 = [] := by decide
        rw [h1, h2] at hq
        rw [← List.nil_append sent, ← hq]
        exact List.mem_singleton.mpr rfl⟩⟩

/-- C13 (amended): a JOIN of an allocated client with an open queue returns; to a lobby name
without entity state it sets the entities of the lobby to the default world and queues a
JOINED carrying it; to a lobby with entity state it leaves the entities as they are and
queues a JOINED carrying them when none of their position and velocity components is a NaN
or an infinity, and the nil frame otherwise; the entities of the other lobbies are
untouched. The default world is 20 entities, the one at index `i` having id `100 + i`, kind
`"asteroid"`, position `((i mod 5 - 2) * 20, 0, (i div 5 - 2) * 20)`, velocity `(0, 0, 0)`
and health 50, where the five coordinates met are the binary64 values of -40, -20, 0, 20
and 40. -/
theorem join_world (c : ClientRef) (lobby : String) (now : Nat) (w : World) (cl : Client)
    (hc : w.heap.lookup c = some cl) (hopen : cl.send.closed = false) :
    (∃ w2, addToLobby c lobby now w = .ok w2 ∧
      (w.hub.gameState.lookup lobby = none →
        w2.hub.gameState.lookup lobby = some createInitialGameState ∧
        queueOf w2 c = cl.send.buf ++ [Message.joined (toUint32 (now / 1000)) now cl.id lobby
          (Float64.posZero, Float64.posZero, Float64.posZero) createInitialGameState]) ∧
      (∀ es, w.hub.gameState.lookup lobby = some es →
        w2.hub.gameState.lookup lobby = some es ∧
        (es.all Entity.encodable = true →
          queueOf w2 c = cl.send.buf ++ [Message.joined (toUint32 (now / 1000)) now cl.id
            lobby (Float64.posZero, Float64.posZero, Float64.posZero) es]) ∧
        (es.all Entity.encodable = false →
          queueOf w2 c = cl.send.buf ++ [Message.nilFrame])) ∧
      (∀ L, L ≠ lobby → w2.hub.gameState.lookup L = w.hub.gameState.lookup L)) ∧
    createInitialGameState.length = 20 ∧
    (∀ i, i < 20 → createInitialGameState[i]? = some
      { ID := 100 + (i : Int), Kind := "asteroid"
        X := Float64.ofSmallInt ((((i % 5 : Nat) : Int) - 2) * 20)
        Y := Float64.posZero
        Z := Float64.ofSmallInt ((((i / 5 : Nat) : Int) - 2) * 20)
        VX := Float64.posZero, VY := Float64.posZero, VZ := Float64.posZero
        HP := 50 }) ∧
    (Float64.ofSmallInt (-40) = ⟨true, 1028, 1125899906842624⟩ ∧
      Float64.ofSmallInt (-20) = ⟨true, 1027, 1125899906842624⟩ ∧
      Float64.ofSmallInt 0 = ⟨false, 0, 0⟩ ∧
      Float64.ofSmallInt 20 = ⟨false, 1027, 1125899906842624⟩ ∧
      Float64.ofSmallInt 40 = ⟨false, 1028, 1125899906842624⟩) := by
  refine ⟨?_, by decide, by decide, by decide⟩
  have hsend : ∀ m, cl.send.send m = .ok ⟨cl.send.buf ++ [m], false⟩ := by
    intro m
    unfold Chan.send
    simp [hopen]
  have henc : ∀ es, (Message.joined (toUint32 (now / 1000)) now cl.id lobby
      (Float64.ofSmallInt 0, Float64.ofSmallInt 0, Float64.ofSmallInt 0) es).encodable
        = es.all Entity.encodable := by
    intro es
    have h0 : vecEncodable (Float64.ofSmallInt 0, Float64.ofSmallInt 0, Float64.ofSmallInt 0)
        = true := by decide
    simp only [Message.encodable, h0, Bool.true_and]
  have hdef : createInitialGameState.all Entity.encodable = true := by decide
  cases hg : w.hub.gameState.lookup lobby with
  | none =>
    refine ⟨_, by unfold addToLobby; simp only [hc, hg, hsend]; rfl, ?_, ?_, ?_⟩
    · intro _
      refine ⟨AList.lookup_insert _, ?_⟩
      simp only [queueOf, AList.lookup_insert, Option.getD_some]
      rw [marshal_of_encodable (by rw [henc]; exact hdef)]
      rfl
    · intro es hes; exact Option.noConfusion hes
    · intro L hL
      exact AList.lookup_insert_ne hL
  | some es0 =>
    refine ⟨_, by unfold addToLobby; simp only [hc, hg, hsend]; rfl, ?_, ?_, ?_⟩
    · intro hn; exact Option.noConfusion hn
    · intro es hes
      cases Option.some.inj hes
      refine ⟨hg, fun he => ?_, fun he => ?_⟩
      · simp only [queueOf, AList.lookup_insert, hg, Option.getD_some]
        rw [marshal_of_encodable (by rw [henc]; exact he)]
        rfl
      · simp only [queueOf, AList.lookup_insert, hg, Option.getD_some]
        rw [marshal_of_not_encodable (by rw [henc]; exact he)]
    · intro L _
      rfl

/-- C13 (amended), at the hub with client 1 registered: the client is allocated with an open
queue, its JOIN of `"alpha"` returns, and the lobby then holds the default world. -/
theorem join_world_witness :
    registeredWorld.heap.lookup 1
        = some { lobby := "", send := { buf := [], closed := false }, id := 1, lastSeq := 0 } ∧
      ∃ w2, addToLobby 1 "alpha" 0 registeredWorld = .ok w2 ∧
        w2.hub.gameState.lookup "alpha" = some createInitialGameState :=
  ⟨by decide,
    match (join_world 1 "alpha" 0 registeredWorld
      { lobby := "", send := { buf := [], closed := false }, id := 1, lastSeq := 0 }
      (by decide) rfl).1 with
    | ⟨w2, h2, hnew, _, _⟩ => ⟨w2, h2, (hnew (by decide)).1⟩⟩

/-- C13 as stated fails: in `nanWorld` lobby `"alpha"` has entity state, and the JOIN of
client 2 leaves that state as it is but queues the nil frame, not a JOINED carrying it: the
encoder rejects the NaN and line 180 discards its error. -/
theorem join_reports_nil_frame :
    ∃ w, run nanWorld [Event.join 2 "alpha" 0] = Outcome.state w ∧
      (nanWorld.hub.gameState.lookup "alpha", w.hub.gameState.lookup "alpha", queueOf w 2)
        = (some [sampleEntity 100 "asteroid" Float64.nan 50],
            some [sampleEntity 100 "asteroid" Float64.nan 50], [Message.nilFrame]) :=
  exists_state_of_finalState _ _ _ _ (by decide)

theorem reachable_induction (P : World → Prop) (h0 : P newHub)
    (hstep : ∀ w e w1, P w → enabled w e = true → step w e = .ok w1 → P w1) :
    ∀ w, Reachable w → P w := by
  have aux : ∀ (es : List Event) (w0 w : World), P w0 → run w0 es = Outcome.state w → P w := by
    intro es
    induction es with
    | nil =>
      intro w0 w hp h
      unfold run at h
      cases h
      exact hp
    | cons e es ih =>
      intro w0 w hp h
      unfold run at h
      split at h
      · rename_i hen
        split at h
        · rename_i w1 hs
          exact ih w1 w (hstep w0 e w1 hp hen hs) h
        · exact Outcome.noConfusion h
      · exact Outcome.noConfusion h
  intro w hw
  obtain ⟨es, hes⟩ := hw
  exact aux es newHub w h0 hes

theorem stateIffMembers_congr {w w1 : World} (h1 : w1.hub.lobbies = w.hub.lobbies)
    (h2 : w1.hub.gameState = w.hub.gameState) (h : StateIffMembers w) :
    StateIffMembers w1 := by
  intro L
  unfold members
  rw [h1, h2]
  exact h L

theorem removeFromLobby_stateIffMembers {c : ClientRef} {w w1 : World}
    (hinv : StateIffMembers w) (h : removeFromLobby c w = .ok w1) : StateIffMembers w1 := by
  unfold removeFromLobby at h
  split at h
  · exact Except.noConfusion h
  · rename_i cl hcl
    split at h
    · cases h; exact hinv
    · simp only at h
      by_cases hmem : c ∈ (w.hub.lobbies.lookup cl.lobby).getD []
      · rw [if_pos hmem] at h
        split at h
        · cases h
          intro L
          unfold members
          simp only
          by_cases hL : L = cl.lobby
          · subst hL
            simp [AList.lookup_erase]
          · rw [AList.lookup_erase_ne hL, AList.lookup_erase_ne hL, AList.lookup_insert_ne hL]
            exact hinv L
        · rename_i hlen
          cases h
          intro L
          unfold members
          simp only
          by_cases hL : L = cl.lobby
          · subst hL
            have h1 : w.hub.gameState.lookup cl.lobby ≠ none :=
              (hinv cl.lobby).mpr (fun he => by
                unfold members at he
                rw [he] at hmem
                simp at hmem)
            simp only [AList.lookup_insert, Option.getD_some] at hlen ⊢
            constructor
            · intro _ he
              apply hlen
              rw [he]
              rfl
            · intro _; exact h1
          · rw [AList.lookup_insert_ne hL]
            exact hinv L
      · rw [if_neg hmem] at h
        split at h
        · rename_i hlen
          cases h
          intro L
          unfold members
          simp only
          by_cases hL : L = cl.lobby
          · subst hL
            simp [AList.lookup_erase]
          · rw [AList.lookup_erase_ne hL, AList.lookup_erase_ne hL]
            exact hinv L
        · cases h
          exact hinv

theorem addToLobby_stateIffMembers {c : ClientRef} {lobby : String} {now : Nat} {w w1 : World}
    (hinv : StateIffMembers w) (h : addToLobby c lobby now w = .ok w1) :
    StateIffMembers w1 := by
  unfold addToLobby at h
  split at h
  · exact Except.noConfusion h
  · simp only at h
    split at h
    · exact Except.noConfusion h
    · cases h
      intro L
      unfold members
      simp only
      by_cases hL : L = lobby
      · subst hL
        rw [AList.lookup_insert]
        have h1 : (Option.some ((w.hub.lobbies.lookup L).getD [] ++ [c])).getD [] ≠ [] := by
          simp
        refine ⟨fun _ => h1, fun _ => ?_⟩
        cases hg : w.hub.gameState.lookup L with
        | none => simp [AList.lookup_insert]
        | some es => simp [hg]
      · rw [AList.lookup_insert_ne hL]
        have h2 := hinv L
        unfold members at h2
        rw [← h2]
        cases hg : w.hub.gameState.lookup lobby with
        | none => simp only; rw [AList.lookup_insert_ne hL]
        | some es => rfl

theorem step_stateIffMembers (w : World) (e : Event) (w1 : World) (hinv : StateIffMembers w)
    (h : step w e = .ok w1) : StateIffMembers w1 := by
  cases e with
  | register c => cases h; exact stateIffMembers_congr rfl rfl hinv
  | unregister c =>
    have hu : unregister c w = .ok w1 := h
    unfold unregister at hu
    split at hu
    · cases hu; exact hinv
    · split at hu
      · exact Except.noConfusion hu
      · split at hu
        · exact Except.noConfusion hu
        · refine removeFromLobby_stateIffMembers ?_ hu
          exact stateIffMembers_congr (w := w) rfl rfl hinv
  | join c lobby now => exact addToLobby_stateIffMembers hinv h
  | tick now =>
    have ht : broadcastGameState now w = .ok w1 := h
    obtain ⟨_, _, hl, hg, _⟩ := tick_hub ht
    exact stateIffMembers_congr hl hg hinv
  | drain c =>
    have hd : drain c w = .ok w1 := h
    unfold drain at hd
    split at hd
    · exact Except.noConfusion hd
    · cases hd; exact stateIffMembers_congr rfl rfl hinv

/-- C14: in every state reachable from `newHub`, a lobby has entity state if and only if it
has at least one member. -/
theorem state_iff_members (w : World) (h : Reachable w) (L : String) :
    w.hub.gameState.lookup L ≠ none ↔ members w L ≠ [] := by
  have hinv : StateIffMembers w := by
    apply reachable_induction StateIffMembers _ _ w h
    · intro L2
      simp [newHub, members]
    · intro w0 e w1 hp _ hs
      exact step_stateIffMembers w0 e w1 hp hs
  exact hinv L

/-- C14, at the hub where client 1 registered and joined `"alpha"`: the state is reachable,
and `"alpha"` has entity state and a member. -/
theorem state_iff_members_witness :
    Reachable joinedWorld ∧
      (joinedWorld.hub.gameState.lookup "alpha" ≠ none ↔ members joinedWorld "alpha" ≠ []) :=
  ⟨⟨[Event.register 1, Event.join 1 "alpha" 0], rfl⟩,
    state_iff_members joinedWorld ⟨[Event.register 1, Event.join 1 "alpha" 0], rfl⟩ "alpha"⟩

theorem fanOut_returns (msg : Message) :
    ∀ (cs : List ClientRef) (heap : AList (fun _ : ClientRef => Client)),
      (∀ c ∈ cs, OpenIn heap c) → ∃ heap2, fanOut msg cs heap = .ok heap2 := by
  intro cs
  induction cs with
  | nil => intro heap _; exact ⟨heap, rfl⟩
  | cons c0 cs ih =>
    intro heap hopen
    obtain ⟨cl0, hl0, hc0⟩ := hopen c0 (List.mem_cons_self _ _)
    have htry : ∃ ch, cl0.send.trySend msg = .ok ch ∧ ch.closed = false := by
      by_cases hroom : cl0.send.buf.length < sendCapacity
      · refine ⟨⟨cl0.send.buf ++ [msg], false⟩, ?_, rfl⟩
        unfold Chan.trySend
        simp [hc0, hroom]
      · refine ⟨cl0.send, ?_, hc0⟩
        unfold Chan.trySend
        simp [hc0, hroom]
    obtain ⟨ch, hch, hchc⟩ := htry
    have hnext : ∀ c ∈ cs, OpenIn (heap.insert c0 { cl0 with send := ch }) c := by
      intro c hc
      by_cases hcc : c = c0
      · subst hcc
        exact ⟨_, AList.lookup_insert _, hchc⟩
      · obtain ⟨cl, hl, hcl⟩ := hopen c (List.mem_cons_of_mem _ hc)
        exact ⟨cl, by rw [AList.lookup_insert_ne hcc]; exact hl, hcl⟩
    obtain ⟨heap2, h2⟩ := ih _ hnext
    refine ⟨heap2, ?_⟩
    unfold fanOut
    simp only [hl0, hch]
    exact h2

theorem broadcastLobby_returns (now : Nat) (L : String) (cl : List ClientRef) (w : World)
    (hopen : ∀ c ∈ cl, OpenIn w.heap c) : ∃ w1, broadcastLobby now L cl w = .ok w1 := by
  unfold broadcastLobby
  split
  · exact ⟨w, rfl⟩
  · simp only
    split
    · obtain ⟨heap2, h2⟩ := fanOut_returns
        (marshal (Message.state now (toUint32 ((w.hub.lobbySeq.lookup L).getD 0 + 1))
          ((w.hub.gameState.lookup L).getD []))) cl w.heap hopen
      rw [h2]
      exact ⟨_, rfl⟩
    · rename_i prev _
      split
      · exact ⟨_, rfl⟩
      · obtain ⟨heap2, h2⟩ := fanOut_returns
          (marshal (Message.stateDelta now (toUint32 ((w.hub.lobbySeq.lookup L).getD 0 + 1))
            (toUint32 (toUint32 ((w.hub.lobbySeq.lookup L).getD 0 + 1) + 4294967295))
            (ComputeDelta prev ((w.hub.gameState.lookup L).getD [])).1
            (ComputeDelta prev ((w.hub.gameState.lookup L).getD [])).2.1
            (ComputeDelta prev ((w.hub.gameState.lookup L).getD [])).2.2)) cl w.heap hopen
        rw [h2]
        exact ⟨_, rfl⟩

theorem broadcastLobby_openIn {now : Nat} {L : String} {cl : List ClientRef} {w w1 : World}
    (h : broadcastLobby now L cl w = .ok w1) {c : ClientRef} (hc : OpenIn w.heap c) :
    OpenIn w1.heap c := by
  by_cases hemp : cl = []
  · rw [(broadcastLobby_hub h).2.2.2.2 hemp]; exact hc
  · obtain ⟨cl0, hl0, hc0⟩ := hc
    obtain ⟨sent, hs, _⟩ := (broadcastLobby_heap h hemp c).2 cl0 hl0
    exact ⟨_, hs, hc0⟩

theorem broadcastLoop_returns (now : Nat) :
    ∀ (l : List (Sigma (fun _ : String => List ClientRef))) (w : World),
      (∀ e ∈ l, ∀ c ∈ e.2, OpenIn w.heap c) → ∃ w2, broadcastLoop now l w = .ok w2 := by
  intro l
  induction l with
  | nil => intro w _; exact ⟨w, rfl⟩
  | cons e rest ih =>
    intro w hopen
    obtain ⟨w1, h1⟩ := broadcastLobby_returns now e.1 e.2 w (hopen e (List.mem_cons_self _ _))
    obtain ⟨w2, h2⟩ := ih w1 (fun e2 he2 c hc =>
      broadcastLobby_openIn h1 (hopen e2 (List.mem_cons_of_mem _ he2) c hc))
    refine ⟨w2, ?_⟩
    unfold broadcastLoop
    simp only [h1]
    exact h2

theorem tick_returns (now : Nat) (w : World)
    (hopen : ∀ L c, c ∈ members w L → OpenIn w.heap c) :
    ∃ w2, broadcastGameState now w = .ok w2 := by
  unfold broadcastGameState
  apply broadcastLoop_returns
  intro e he c hc
  exact hopen e.1 c (mem_members_iff.mpr ⟨e.2, he, hc⟩)

theorem tick_full_unchanged {now : Nat} {w w2 : World}
    (h : broadcastGameState now w = .ok w2) {c : ClientRef} {cl : Client}
    (hc : w.heap.lookup c = some cl) (hfull : sendCapacity ≤ cl.send.buf.length) :
    w2.heap.lookup c = some cl := by
  obtain ⟨sent, hs, _, _, hnil⟩ := (tick_heap h c).2 cl hc
  rw [hs, hnil hfull, Client.fedWith_nil]

theorem ticks_full_unchanged :
    ∀ (nows : List Nat) (w wN : World) (c : ClientRef) (cl : Client),
      w.heap.lookup c = some cl → sendCapacity ≤ cl.send.buf.length →
      run w (nows.map Event.tick) = Outcome.state wN →
      wN.heap.lookup c = some cl ∧ wN.hub.clients = w.hub.clients ∧
        wN.hub.lobbies = w.hub.lobbies := by
  intro nows
  induction nows with
  | nil =>
    intro w wN c cl hc _ h
    simp only [List.map_nil] at h
    unfold run at h
    cases h
    exact ⟨hc, rfl, rfl⟩
  | cons n ns ih =>
    intro w wN c cl hc hfull h
    simp only [List.map_cons] at h
    unfold run at h
    split at h
    · split at h
      · rename_i w1 hs
        have ht : broadcastGameState n w = .ok w1 := hs
        obtain ⟨h1, h2, h3⟩ := ih w1 wN c cl (tick_full_unchanged ht hc hfull) hfull h
        obtain ⟨hcl, _, hlb, _⟩ := tick_hub ht
        exact ⟨h1, h2.trans hcl, h3.trans hlb⟩
      · exact Outcome.noConfusion h
    · exact Outcome.noConfusion h

/-- C15 (amended): while the queue of a client holds 256 frames or more, a Tick returns as
long as every member of every lobby is allocated with an open queue; and a Tick that returns
leaves the record of that client as it was (queue contents, queue still open, lobby field),
leaves the registry and every member list unchanged, and still serves the others: for every
lobby with a frame this tick, every member has that frame queued or ends the tick with a
full queue, and a member of that lobby alone whose queue had room has it queued. Any number
of consecutive ticks leave the client with its queue, the registry and the member lists
unchanged, so the client receives none of the frames those ticks broadcast. -/
theorem full_queue_dropped (w : World) (c : ClientRef) (cl : Client)
    (hc : w.heap.lookup c = some cl) (hfull : sendCapacity ≤ cl.send.buf.length) :
    (∀ now, (∀ L c2, c2 ∈ members w L →
        ∃ cl2, w.heap.lookup c2 = some cl2 ∧ cl2.send.closed = false) →
      ∃ w2, broadcastGameState now w = .ok w2) ∧
    (∀ now w2, broadcastGameState now w = .ok w2 →
      w2.heap.lookup c = some cl ∧ queueOf w2 c = queueOf w c ∧
      w2.hub.clients = w.hub.clients ∧ w2.hub.lobbies = w.hub.lobbies ∧
      (∀ L m c2, c2 ∈ members w L → lobbyMessage now L w = some m →
        ∃ sent, queueOf w2 c2 = queueOf w c2 ++ sent ∧
          (m ∈ sent ∨ sendCapacity ≤ (queueOf w2 c2).length) ∧
          ((∀ L2, c2 ∈ members w L2 → L2 = L) → (queueOf w c2).length < sendCapacity →
            m ∈ sent))) ∧
    (∀ (nows : List Nat) wN, run w (nows.map Event.tick) = Outcome.state wN →
      wN.heap.lookup c = some cl ∧ queueOf wN c = queueOf w c ∧
        wN.hub.clients = w.hub.clients ∧ wN.hub.lobbies = w.hub.lobbies) := by
  refine ⟨fun now hopen => tick_returns now w hopen, ?_, ?_⟩
  swap
  · intro nows wN h
    obtain ⟨h1, h2, h3⟩ := ticks_full_unchanged nows w wN c cl hc hfull h
    exact ⟨h1, by unfold queueOf; rw [h1, hc], h2, h3⟩
  intro now w2 h
  have hkeep := tick_full_unchanged h hc hfull
  obtain ⟨hcl, _, hlb, _⟩ := tick_hub h
  refine ⟨hkeep, by unfold queueOf; rw [hkeep, hc], hcl, hlb, ?_⟩
  intro L m c2 hmem hmsg
  obtain ⟨sent, hq, hfrom, hdel, _⟩ := tick_queue h c2
  refine ⟨sent, hq, hdel L m hmem hmsg, ?_⟩
  intro honly hroom
  rcases hdel L m hmem hmsg with hd | hd
  · exact hd
  · cases sent with
    | nil =>
      rw [hq, List.append_nil] at hd
      omega
    | cons m1 rest =>
      obtain ⟨L1, hm1, hmsg1⟩ := hfrom m1 (List.mem_cons_self _ _)
      rw [honly L1 hm1, hmsg] at hmsg1
      rw [Option.some.inj hmsg1]
      exact List.mem_cons_self _ _

set_option maxRecDepth 8000 in
/-- C15 (amended), at `fullWorld`: client 1 holds 256 frames, the tick at clock reading 66
succeeds, leaves the queue of client 1 as it was and queues the STATE for client 2. -/
theorem full_queue_dropped_witness :
    fullWorld.heap.lookup 1
        = some { lobby := "alpha"
                 send := { buf := List.replicate 256 (Message.state 0 0 []), closed := false }
                 id := 1, lastSeq := 0 } ∧
      sendCapacity ≤ (List.replicate 256 (Message.state 0 0 [])).length ∧
      broadcastGameState 66 fullWorld = .ok fullWorldTicked ∧
      queueOf fullWorldTicked 1 = queueOf fullWorld 1 ∧
      queueOf fullWorldTicked 2 = [Message.state 66 1 createInitialGameState] :=
  ⟨rfl, by rw [List.length_replicate]; exact Nat.le_refl 256, rfl,
    ((full_queue_dropped fullWorld 1
      { lobby := "alpha"
        send := { buf := List.replicate 256 (Message.state 0 0 []), closed := false }
        id := 1, lastSeq := 0 } rfl
      (by rw [List.length_replicate]; exact Nat.le_refl 256)).2.1 66 fullWorldTicked rfl).2.1,
    rfl⟩

set_option maxRecDepth 8000 in
/-- C15 as stated fails: over three consecutive ticks of `fullWorld`, during which the queue
of client 1 stays full, lobby `"alpha"` broadcasts once (the STATE of the first tick; the
deltas of the next two are empty), as the queue of client 2 shows, so client 1 loses one
broadcast, not three, while the counter goes to 3. -/
theorem three_ticks_one_broadcast :
    ∃ w, run fullWorld [Event.tick 66, Event.tick 132, Event.tick 198] = Outcome.state w ∧
      ((queueOf w 1).length, queueOf w 2, seqOf w "alpha")
        = (256, [Message.state 66 1 createInitialGameState], 3) :=
  exists_state_of_finalState _ _ _ _ (by decide)

theorem regInv_of_ids {regs : List ClientRef} {w w1 : World} (h : RegInv regs w)
    (hn : w1.hub.nextID = w.hub.nextID)
    (hid : ∀ c, (w1.heap.lookup c).map Client.id = (w.heap.lookup c).map Client.id) :
    RegInv regs w1 := by
  obtain ⟨h1, h2, h3, h4⟩ := h
  refine ⟨hn.trans h1, h2, fun c => ?_, fun c cl1 hc1 => ?_⟩
  · rw [← h3 c]
    have := hid c
    cases ha : w1.heap.lookup c <;> cases hb : w.heap.lookup c <;> simp [ha, hb] at this ⊢
  · have := hid c
    rw [hc1] at this
    cases hb : w.heap.lookup c with
    | none => rw [hb] at this; simp at this
    | some cl =>
      rw [hb] at this
      simp only [Option.map_some', Option.some.injEq] at this
      rw [this]
      exact h4 c cl hb

theorem step_ids (w : World) (e : Event) (w1 : World) (hne : ∀ c, e ≠ Event.register c)
    (h : step w e = .ok w1) :
    w1.hub.nextID = w.hub.nextID ∧
      ∀ c, (w1.heap.lookup c).map Client.id = (w.heap.lookup c).map Client.id := by
  cases e with
  | register c => exact absurd rfl (hne c)
  | unregister c0 =>
    have hu : unregister c0 w = .ok w1 := h
    refine ⟨(unregister_frame hu).1, ?_⟩
    unfold unregister at hu
    split at hu
    · cases hu; exact fun _ => rfl
    · split at hu
      · exact Except.noConfusion hu
      · rename_i cl0 hcl0
        split at hu
        · exact Except.noConfusion hu
        · rw [(removeFromLobby_frame hu).1]
          intro c
          by_cases hc : c = c0
          · subst hc
            simp [AList.lookup_insert, hcl0]
          · simp only
            rw [AList.lookup_insert_ne hc]
  | join c0 lobby now =>
    have hj : addToLobby c0 lobby now w = .ok w1 := h
    refine ⟨(addToLobby_frame hj).2.1, ?_⟩
    unfold addToLobby at hj
    split at hj
    · exact Except.noConfusion hj
    · rename_i cl0 hcl0
      simp only at hj
      split at hj
      · exact Except.noConfusion hj
      · cases hj
        intro c
        by_cases hc : c = c0
        · subst hc
          simp [AList.lookup_insert, hcl0]
        · simp only
          rw [AList.lookup_insert_ne hc]
  | tick now =>
    have ht : broadcastGameState now w = .ok w1 := h
    refine ⟨(tick_hub ht).2.1, fun c => ?_⟩
    have hh := tick_heap ht c
    cases hl : w.heap.lookup c with
    | none => rw [hh.1 hl]
    | some cl0 =>
      obtain ⟨sent, hs, _⟩ := hh.2 cl0 hl
      rw [hs]
      rfl
  | drain c0 =>
    have hd : drain c0 w = .ok w1 := h
    unfold drain at hd
    split at hd
    · exact Except.noConfusion hd
    · rename_i cl0 hcl0
      cases hd
      refine ⟨rfl, fun c => ?_⟩
      by_cases hc : c = c0
      · subst hc
        simp [AList.lookup_insert, hcl0]
      · simp only
        rw [AList.lookup_insert_ne hc]

theorem register_regInv {regs : List ClientRef} {w : World} {c : ClientRef}
    (h : RegInv regs w) (hfresh : w.heap.lookup c = none) {w1 : World}
    (hr : register c w = .ok w1) : RegInv (regs ++ [c]) w1 := by
  obtain ⟨h1, h2, h3, h4⟩ := h
  have hnot : c ∉ regs := fun hm => (h3 c).mpr hm hfresh
  cases hr
  refine ⟨?_, ?_, fun c2 => ?_, fun c2 cl2 hc2 => ?_⟩
  · simp only [List.length_append, List.length_singleton]
    rw [h1]
    push_cast
    ring
  · rw [List.nodup_append]
    refine ⟨h2, List.nodup_singleton c, ?_⟩
    intro a ha hb
    rw [List.mem_singleton] at hb
    exact hnot (hb ▸ ha)
  · by_cases hc : c2 = c
    · subst hc
      simp [AList.lookup_insert]
    · simp only
      rw [AList.lookup_insert_ne hc, h3 c2]
      simp [hc]
  · by_cases hc : c2 = c
    · subst hc
      simp only [AList.lookup_insert, Option.some.injEq] at hc2
      rw [← hc2]
      simp only
      rw [List.indexOf_append_of_not_mem hnot, List.indexOf_cons_self, h1]
      simp
    · simp only at hc2
      rw [AList.lookup_insert_ne hc] at hc2
      have hm : c2 ∈ regs := (h3 c2).mp (by rw [hc2]; exact fun hn => Option.noConfusion hn)
      rw [List.indexOf_append_of_mem hm]
      exact h4 c2 cl2 hc2

theorem run_regInv :
    ∀ (es : List Event) (pre : List ClientRef) (w0 w : World),
      RegInv pre w0 → run w0 es = Outcome.state w → RegInv (pre ++ registrations es) w := by
  intro es
  induction es with
  | nil =>
    intro pre w0 w hp h
    unfold run at h
    cases h
    simpa [registrations] using hp
  | cons e es ih =>
    intro pre w0 w hp h
    unfold run at h
    split at h
    · rename_i hen
      split at h
      · rename_i w1 hs
        cases e with
        | register c =>
          have hfresh : w0.heap.lookup c = none := by
            have : (w0.heap.lookup c).isNone = true := hen
            exact Option.isNone_iff_eq_none.mp this
          have := ih (pre ++ [c]) w1 w (register_regInv hp hfresh hs) h
          simpa [registrations] using this
        | unregister c =>
          obtain ⟨hn, hid⟩ := step_ids w0 _ w1 (fun c2 he => Event.noConfusion he) hs
          exact ih pre w1 w (regInv_of_ids hp hn hid) h
        | join c lobby now =>
          obtain ⟨hn, hid⟩ := step_ids w0 _ w1 (fun c2 he => Event.noConfusion he) hs
          exact ih pre w1 w (regInv_of_ids hp hn hid) h
        | tick now =>
          obtain ⟨hn, hid⟩ := step_ids w0 _ w1 (fun c2 he => Event.noConfusion he) hs
          exact ih pre w1 w (regInv_of_ids hp hn hid) h
        | drain c =>
          obtain ⟨hn, hid⟩ := step_ids w0 _ w1 (fun c2 he => Event.noConfusion he) hs
          exact ih pre w1 w (regInv_of_ids hp hn hid) h
      · exact Outcome.noConfusion h
    · exact Outcome.noConfusion h

/-- C16: after any sequence of events from `newHub`, with `regs` the clients of its `Register`
events in order: the next identity is the number of registrations plus one; no client was
registered twice; the allocated clients are the registered ones, and each holds as identity
its rank in `regs` counted from one, whatever happened to it since (so the k-th `Register`
gave identity k), which is at least 1 and below the next identity; identities grow with the
registration order and two distinct clients never share one; and a further `Register` puts
its client in the registry with the next identity and advances the next identity by one. -/
theorem register_ids (es : List Event) (w : World) (h : run newHub es = Outcome.state w) :
    w.hub.nextID = ((registrations es).length : Int) + 1 ∧ (registrations es).Nodup ∧
    (∀ c, w.heap.lookup c ≠ none ↔ c ∈ registrations es) ∧
    (∀ c cl, w.heap.lookup c = some cl →
      cl.id = ((registrations es).indexOf c : Int) + 1 ∧ 1 ≤ cl.id ∧ cl.id < w.hub.nextID) ∧
    (∀ c1 c2 cl1 cl2, w.heap.lookup c1 = some cl1 → w.heap.lookup c2 = some cl2 →
      ((registrations es).indexOf c1 < (registrations es).indexOf c2 → cl1.id < cl2.id) ∧
      (cl1.id = cl2.id → c1 = c2)) ∧
    (∀ c w2, step w (Event.register c) = .ok w2 →
      w2.hub.clients.lookup c = some true ∧ w2.hub.nextID = w.hub.nextID + 1 ∧
      ∃ cl, w2.heap.lookup c = some cl ∧ cl.id = w.hub.nextID) := by
  have hinit : RegInv [] newHub := by
    refine ⟨rfl, List.nodup_nil, fun c => ?_, fun c cl hc => ?_⟩
    · simp [newHub]
    · simp [newHub] at hc
  have hinv := run_regInv es [] newHub w hinit h
  rw [List.nil_append] at hinv
  obtain ⟨h1, h2, h3, h4⟩ := hinv
  have hmem : ∀ c cl, w.heap.lookup c = some cl → c ∈ registrations es := fun c cl hc =>
    (h3 c).mp (by rw [hc]; exact fun hn => Option.noConfusion hn)
  refine ⟨h1, h2, h3, ?_, ?_, ?_⟩
  · intro c cl hc
    have hlt := List.indexOf_lt_length.mpr (hmem c cl hc)
    refine ⟨h4 c cl hc, ?_, ?_⟩
    · rw [h4 c cl hc]; omega
    · rw [h4 c cl hc, h1]; omega
  · intro c1 c2 cl1 cl2 hc1 hc2
    rw [h4 c1 cl1 hc1, h4 c2 cl2 hc2]
    refine ⟨fun hlt => by omega, fun heq => ?_⟩
    have : (registrations es).indexOf c1 = (registrations es).indexOf c2 := by omega
    exact (List.indexOf_inj (hmem c1 cl1 hc1) (hmem c2 cl2 hc2)).mp this
  · intro c w2 hs
    have hr : register c w = .ok w2 := hs
    cases hr
    exact ⟨AList.lookup_insert _, rfl, _, AList.lookup_insert _, rfl⟩

/-- C16, at the run that registers client 1: the run ends in `registeredWorld`, where the
next identity is 2. -/
theorem register_ids_witness :
    run newHub [Event.register 1] = Outcome.state registeredWorld ∧
      registeredWorld.hub.nextID = ((registrations [Event.register 1]).length : Int) + 1 :=
  ⟨rfl, (register_ids [Event.register 1] registeredWorld rfl).1⟩

theorem unregister_of_not_registered {c : ClientRef} {w : World}
    (h : w.hub.clients.lookup c = none) : unregister c w = .ok w := by
  unfold unregister
  rw [h]

theorem unregister_gone {c : ClientRef} {w w1 : World} (hc : w.heap.lookup c ≠ none)
    (h : unregister c w = .ok w1) : Gone c w1 := by
  unfold unregister at h
  split at h
  · rename_i hn
    cases h
    exact ⟨hc, hn⟩
  · split at h
    · exact Except.noConfusion h
    · split at h
      · exact Except.noConfusion h
      · obtain ⟨hh, hcl, _⟩ := removeFromLobby_frame h
        unfold Gone
        rw [hh, hcl]
        simp [AList.lookup_insert, AList.lookup_erase]

theorem step_gone {c : ClientRef} (w : World) (e : Event) (w1 : World) (hg : Gone c w)
    (hen : enabled w e = true) (h : step w e = .ok w1) : Gone c w1 := by
  obtain ⟨hheap, hcl⟩ := hg
  have hkeep : (∀ c2, e ≠ Event.register c2) → w1.heap.lookup c ≠ none := by
    intro hne
    have := (step_ids w e w1 hne h).2 c
    intro hn
    rw [hn] at this
    cases hb : w.heap.lookup c with
    | none => exact hheap hb
    | some cl => rw [hb] at this; simp at this
  cases e with
  | register c0 =>
    have hfresh : w.heap.lookup c0 = none := by
      have : (w.heap.lookup c0).isNone = true := hen
      exact Option.isNone_iff_eq_none.mp this
    have hne : c ≠ c0 := fun he => hheap (he ▸ hfresh)
    cases h
    exact ⟨by simp only; rw [AList.lookup_insert_ne hne]; exact hheap,
      by simp only; rw [AList.lookup_insert_ne hne]; exact hcl⟩
  | unregister c0 =>
    refine ⟨hkeep (fun c2 he => Event.noConfusion he), ?_⟩
    have hu : unregister c0 w = .ok w1 := h
    unfold unregister at hu
    split at hu
    · cases hu; exact hcl
    · rename_i b hb
      split at hu
      · exact Except.noConfusion hu
      · split at hu
        · exact Except.noConfusion hu
        · rw [(removeFromLobby_frame hu).2.1]
          have hne : c ≠ c0 := fun he => by rw [he, hb] at hcl; exact Option.noConfusion hcl
          simp only
          rw [AList.lookup_erase_ne hne]
          exact hcl
  | join c0 lobby now =>
    refine ⟨hkeep (fun c2 he => Event.noConfusion he), ?_⟩
    have hj : addToLobby c0 lobby now w = .ok w1 := h
    rw [(addToLobby_frame hj).1]
    exact hcl
  | tick now =>
    refine ⟨hkeep (fun c2 he => Event.noConfusion he), ?_⟩
    have ht : broadcastGameState now w = .ok w1 := h
    rw [(tick_hub ht).1]
    exact hcl
  | drain c0 =>
    refine ⟨hkeep (fun c2 he => Event.noConfusion he), ?_⟩
    have hd : drain c0 w = .ok w1 := h
    unfold drain at hd
    split at hd
    · exact Except.noConfusion hd
    · cases hd; exact hcl

theorem run_gone {c : ClientRef} :
    ∀ (es : List Event) (w0 w : World), Gone c w0 → run w0 es = Outcome.state w → Gone c w := by
  intro es
  induction es with
  | nil =>
    intro w0 w hg h
    unfold run at h
    cases h
    exact hg
  | cons e es ih =>
    intro w0 w hg h
    unfold run at h
    split at h
    · rename_i hen
      split at h
      · rename_i w1 hs
        exact ih w1 w (step_gone w0 e w1 hg hen hs) h
      · exact Outcome.noConfusion h
    · exact Outcome.noConfusion h

/-- C17: once `Unregister` of an allocated client has been processed, processing it again,
at once or after any further events, returns the state it is given unchanged: nothing is
closed a second time and no member list is touched. -/
theorem unregister_idempotent (w w1 : World) (c : ClientRef) (hc : w.heap.lookup c ≠ none)
    (h : unregister c w = .ok w1) :
    unregister c w1 = .ok w1 ∧
      ∀ es w2, run w1 es = Outcome.state w2 → unregister c w2 = .ok w2 := by
  have hg := unregister_gone hc h
  exact ⟨unregister_of_not_registered hg.2,
    fun es w2 hr => unregister_of_not_registered (run_gone es w1 w2 hg hr).2⟩

/-- C17, at the hub where client 1 registered and joined `"alpha"`: the client is allocated,
its `Unregister` gives `unregisteredWorld`, and a second one leaves that state as it is. -/
theorem unregister_idempotent_witness :
    joinedWorld.heap.lookup 1 ≠ none ∧ unregister 1 joinedWorld = .ok unregisteredWorld ∧
      unregister 1 unregisteredWorld = .ok unregisteredWorld :=
  ⟨by decide, rfl, (unregister_idempotent joinedWorld unregisteredWorld 1 (by decide) rfl).1⟩

/-- C18 fails on the code: the code of a JOIN runs in the goroutine of the reader of the
client, not in the hub loop, and it does write the maps of the hub: every JOIN that returns
has appended the client to `h.lobbies[lobby]`, and the first JOIN of `"alpha"` also created
`h.gameState["alpha"]`. -/
theorem join_runs_in_reader :
    (∀ c lobby now, executedBy (Event.join c lobby now) = Context.reader c ∧
      executedBy (Event.join c lobby now) ≠ Context.hubLoop) ∧
    (∀ c lobby now w w1, step w (Event.join c lobby now) = .ok w1 →
      members w1 lobby = members w lobby ++ [c] ∧ w1.hub.lobbies ≠ w.hub.lobbies) ∧
    ∃ w, run newHub [Event.register 1, Event.join 1 "alpha" 0] = Outcome.state w ∧
      (members w "alpha", w.hub.gameState.lookup "alpha")
        = ([1], some createInitialGameState) := by
  refine ⟨fun c lobby now => ⟨rfl, fun h => Context.noConfusion h⟩, ?_,
    exists_state_of_finalState _ _ _ _ (by decide)⟩
  intro c lobby now w w1 h
  have hj : addToLobby c lobby now w = .ok w1 := h
  have hm : members w1 lobby = members w lobby ++ [c] := by
    unfold addToLobby at hj
    split at hj
    · exact Except.noConfusion hj
    · simp only at hj
      split at hj
      · exact Except.noConfusion hj
      · cases hj
        unfold members
        simp [AList.lookup_insert]
  refine ⟨hm, fun he => ?_⟩
  have : members w1 lobby = members w lobby := by unfold members; rw [he]
  rw [this] at hm
  have hlen := congrArg List.length hm
  simp at hlen

/-- C19 (amended): for all lists, repeated ids included, `ComputeDelta prev curr` returns three
empty lists if and only if `prev` and `curr` have the same set of ids and, for every id, the
last entity with that id in `prev` and the last one in `curr` are equal under Go `==` on X, Y,
Z, VX, VY, VZ (no NaN, zeros of either sign equal) and have the same HP; kind and order
play no part. Consequently, in a Tick that returns, for a lobby with a previous snapshot: in
that case the queue of every client that is a member of that lobby alone is left as it was,
and otherwise every member has the frame of the STATE_DELTA queued (`marshal`: the
STATE_DELTA, or the nil frame when the encoder rejects it) or ends the tick with a full
queue. -/
theorem delta_empty_iff_goEqual (prev curr : List Entity) :
    (ComputeDelta prev curr = ([], [], []) ↔
      (∀ id, id ∈ prev.map Entity.ID ↔ id ∈ curr.map Entity.ID) ∧
      ∀ id p c, lastWithId id prev = some p → lastWithId id curr = some c → p.goEqual c) ∧
    (∀ now w w2 L, broadcastGameState now w = .ok w2 →
      w.hub.lastState.lookup L = some prev → (w.hub.gameState.lookup L).getD [] = curr →
      (ComputeDelta prev curr = ([], [], []) →
        ∀ c ∈ members w L, (∀ L2, c ∈ members w L2 → L2 = L) → queueOf w2 c = queueOf w c) ∧
      (ComputeDelta prev curr ≠ ([], [], []) →
        ∀ c ∈ members w L, ∃ sent, queueOf w2 c = queueOf w c ++ sent ∧
          (marshal (Message.stateDelta now (seqOf w2 L) (toUint32 (seqOf w2 L + 4294967295))
              (ComputeDelta prev curr).1 (ComputeDelta prev curr).2.1
              (ComputeDelta prev curr).2.2) ∈ sent ∨
            sendCapacity ≤ (queueOf w2 c).length))) := by
  refine ⟨computeDelta_eq_nil_iff prev curr, ?_⟩
  intro now w w2 L h hls hcurr
  constructor
  · intro hempty c hc honly
    obtain ⟨sent, hq, hfrom, _, _⟩ := tick_queue h c
    cases sent with
    | nil => rw [hq, List.append_nil]
    | cons m rest =>
      exfalso
      obtain ⟨L1, hm1, hmsg1⟩ := hfrom m (List.mem_cons_self _ _)
      rw [honly L1 hm1] at hmsg1
      unfold lobbyMessage at hmsg1
      rw [hls] at hmsg1
      simp only at hmsg1
      rw [hcurr, if_pos hempty] at hmsg1
      exact Option.noConfusion hmsg1
  · intro hne c hc
    obtain ⟨sent, hq, _, hdel, _⟩ := tick_queue h c
    have hmem : members w L ≠ [] := fun he => by rw [he] at hc; simp at hc
    have hseq2 : seqOf w2 L = toUint32 (seqOf w L + 1) := by
      show (w2.hub.lobbySeq.lookup L).getD 0 = _
      rw [(tick_hub h).2.2.2.2.2 L hmem]
      rfl
    refine ⟨sent, hq, hdel L _ hc ?_⟩
    unfold lobbyMessage
    rw [hls]
    simp only
    rw [hcurr, if_neg hne, hseq2]

/-- C19 (amended), at three ticks: in `staleKindWorld` the delta is empty and the queue of the
member is left as it was; in `deltaWorld` it is not and the member holds the STATE_DELTA; in
`nanWorld` it is not and the member holds the nil frame. -/
theorem delta_empty_iff_goEqual_witness :
    (broadcastGameState 66 staleKindWorld = .ok staleKindWorldTicked ∧
      queueOf staleKindWorldTicked 1 = queueOf staleKindWorld 1) ∧
    (broadcastGameState 66 deltaWorld = .ok deltaWorldTicked ∧
      ∃ sent, queueOf deltaWorldTicked 1 = queueOf deltaWorld 1 ++ sent ∧
        (Message.stateDelta 66 2 1 [⟨100, none, none, some 40⟩] [] [] ∈ sent ∨
          sendCapacity ≤ (queueOf deltaWorldTicked 1).length)) ∧
    (broadcastGameState 66 nanWorld = .ok nanWorldTicked ∧
      ∃ sent, queueOf nanWorldTicked 1 = queueOf nanWorld 1 ++ sent ∧
        (Message.nilFrame ∈ sent ∨ sendCapacity ≤ (queueOf nanWorldTicked 1).length)) :=
  ⟨⟨rfl, ((delta_empty_iff_goEqual [sampleEntity 100 "asteroid" Float64.posZero 50]
      [sampleEntity 100 "debris" Float64.posZero 50]).2 66 staleKindWorld staleKindWorldTicked
      "alpha" rfl rfl rfl).1 (by decide) 1 (by decide) (by
        intro L2 h2
        by_contra hne
        have : members staleKindWorld L2 = [] := by
          unfold members staleKindWorld
          simp only
          rw [AList.lookup_insert_ne hne]
          rfl
        rw [this] at h2
        simp at h2)⟩,
    ⟨rfl, ((delta_empty_iff_goEqual [sampleEntity 100 "asteroid" Float64.posZero 50]
      [sampleEntity 100 "asteroid" Float64.posZero 40]).2 66 deltaWorld deltaWorldTicked
      "alpha" rfl rfl rfl).2 (by decide) 1 (by decide)⟩,
    ⟨rfl, ((delta_empty_iff_goEqual [sampleEntity 100 "asteroid" Float64.posZero 50]
      [sampleEntity 100 "asteroid" Float64.nan 50]).2 66 nanWorld nanWorldTicked
      "alpha" rfl rfl rfl).2 (by decide) 1 (by decide)⟩⟩

/-- C19 as stated fails in both directions: a list whose entity has a NaN x coordinate has the
same ids and the same field values as itself, yet its delta against itself is not empty;
and two lists that differ only in the sign of a zero x coordinate have an empty delta, yet
the x fields are not the same value. -/
theorem delta_empty_not_sameFields :
    (lastWithId 1 [sampleEntity 1 "asteroid" Float64.nan 50]
        = some (sampleEntity 1 "asteroid" Float64.nan 50) ∧
      (sampleEntity 1 "asteroid" Float64.nan 50).sameFields
        (sampleEntity 1 "asteroid" Float64.nan 50) ∧
      ComputeDelta [sampleEntity 1 "asteroid" Float64.nan 50]
        [sampleEntity 1 "asteroid" Float64.nan 50] ≠ ([], [], [])) ∧
    (ComputeDelta [sampleEntity 1 "asteroid" Float64.posZero 50]
        [sampleEntity 1 "asteroid" Float64.negZero 50] = ([], [], []) ∧
      lastWithId 1 [sampleEntity 1 "asteroid" Float64.posZero 50]
        = some (sampleEntity 1 "asteroid" Float64.posZero 50) ∧
      lastWithId 1 [sampleEntity 1 "asteroid" Float64.negZero 50]
        = some (sampleEntity 1 "asteroid" Float64.negZero 50) ∧
      ¬ (sampleEntity 1 "asteroid" Float64.posZero 50).sameFields
        (sampleEntity 1 "asteroid" Float64.negZero 50)) := by
  decide

end SpaceArcade
